import Mathlib

/-!
# Verification of the `little-sorry` regret-minimization core

This file is a shallow embedding, over exact rational arithmetic, of the
regret-minimization engine of the `little-sorry` repository: the shared
helpers of `src/regret_minimizer.rs`, the six matcher variants
(`cfr_plus.rs`, `dcfr.rs`, `dcfr_plus.rs`, `linear_cfr.rs`, `pcfr_plus.rs`,
`pdcfr_plus.rs`), the discount policy of `src/discount.rs`, and the
self-play harness of `src/rps.rs`.

Modelling conventions:

* `f32` values are idealized as `ℚ` (exact rationals).  Every tolerance
  claim (`within 1e-5`) is then settled exactly.  Division by zero in `ℚ`
  is `0`; where the source would produce `NaN` or `inf` (`0.0 / 0.0`,
  `x / 0.0`) the model produces `0`, and in both semantics the value is
  not a probability vector — every refutation below is insensitive to
  this difference.
* `ndarray` one-dimensional arrays are modelled as `List ℚ`; the
  element-wise operations (`+`, broadcast `-`, scalar `*` and `/`) are
  `List.zipWith` / `List.map`.  The source panics on length mismatch, so
  run-level theorems carry the well-formedness hypothesis that every
  reward vector has the matcher's length.
* The `WeightedAliasIndex` sampler is a derived structure over the
  current strategy; only its construction precondition (`validWeights`)
  is modelled, mirroring the `InvalidWeights`/`LittleError` condition.
* `f32::powf` with an arbitrary real exponent is irrational-valued, so
  the discount factors inside the DCFR-family updates are abstracted as
  rational-valued schedule functions of the iteration counter `t`; all
  structural theorems are proved for *every* schedule, which covers the
  concrete `t^exp / (t^exp + 1)` instantiations.  The discount policy
  itself (`DiscountParams::discount_factor`) is modelled separately over
  `ℝ` with `Real.rpow`.
* Sampling (`next_action`, `rand::Rng`) is modelled by passing the drawn
  action indices as explicit inputs of the harness step.
-/

/-! ## Shared helpers (`src/regret_minimizer.rs`) -/

/-- `uniform_weights` of `regret_minimizer.rs` (also each variant's
`init_weights`): `vec![1.0 / n as f32; n]`. -/
def uniform_weights (n : ℕ) : List ℚ :=
  List.replicate n (1 / (n : ℚ))

/-- `dot` of `regret_minimizer.rs`: `a.iter().zip(b).map(|(&x, &y)| x * y).sum()`. -/
def dot (a b : List ℚ) : ℚ :=
  (List.zipWith (· * ·) a b).sum

/-- `add_assign` of `regret_minimizer.rs`: `dst[i] += src[i]`. -/
def add_assign (dst src : List ℚ) : List ℚ :=
  List.zipWith (· + ·) dst src

/-- Element-wise clip to non-negative, the
`.map(|v| f32::max(0.0, v))` pattern shared by every variant. -/
def clipNonneg (v : List ℚ) : List ℚ :=
  v.map (fun r => max 0 r)

/-- Element-wise division by a scalar, the `array / sum` pattern
(`ndarray` broadcasts the division). -/
def scaleDiv (v : List ℚ) (s : ℚ) : List ℚ :=
  v.map (fun x => x / s)

/-- `normalize_inplace` of `regret_minimizer.rs`: normalize to sum 1,
uniform fallback when the sum is `≤ 0`. -/
def normalize_inplace (p : List ℚ) : List ℚ :=
  if p.sum ≤ 0 then uniform_weights p.length else scaleDiv p p.sum

/-- `regret_match` of `regret_minimizer.rs`: clip to non-negative, then
normalize with uniform fallback. -/
def regret_match (regrets : List ℚ) : List ℚ :=
  normalize_inplace (clipNonneg regrets)

/-- Construction precondition of `WeightedAliasIndex::new` (the
`InvalidWeights` / `LittleError::Weights` condition of `src/errors.rs`):
the weight vector is non-empty, has no negative entry, and has a
strictly positive sum. -/
def validWeights (w : List ℚ) : Prop :=
  w ≠ [] ∧ (∀ x ∈ w, 0 ≤ x) ∧ 0 < w.sum

instance (w : List ℚ) : Decidable (validWeights w) := by
  unfold validWeights; infer_instance

/-! ### Basic list lemmas for the helpers -/

theorem scaleDiv_sum (v : List ℚ) (s : ℚ) : (scaleDiv v s).sum = v.sum / s := by
  induction v with
  | nil => simp [scaleDiv]
  | cons a t ih =>
      simp only [scaleDiv, List.map_cons, List.sum_cons] at *
      rw [ih, add_div]

theorem scaleDiv_length (v : List ℚ) (s : ℚ) : (scaleDiv v s).length = v.length := by
  simp [scaleDiv]

theorem scaleDiv_nonneg {v : List ℚ} {s : ℚ} (hv : ∀ x ∈ v, 0 ≤ x) (hs : 0 ≤ s) :
    ∀ x ∈ scaleDiv v s, 0 ≤ x := by
  intro x hx
  simp only [scaleDiv, List.mem_map] at hx
  obtain ⟨y, hy, rfl⟩ := hx
  exact div_nonneg (hv y hy) hs

theorem clipNonneg_nonneg (v : List ℚ) : ∀ x ∈ clipNonneg v, 0 ≤ x := by
  intro x hx
  simp only [clipNonneg, List.mem_map] at hx
  obtain ⟨y, _, rfl⟩ := hx
  exact le_max_left 0 y

theorem clipNonneg_length (v : List ℚ) : (clipNonneg v).length = v.length := by
  simp [clipNonneg]

theorem uniform_weights_sum {n : ℕ} (hn : 1 ≤ n) : (uniform_weights n).sum = 1 := by
  have hne : (n : ℚ) ≠ 0 := by
    have : n ≠ 0 := Nat.one_le_iff_ne_zero.mp hn
    exact_mod_cast this
  simp [uniform_weights, List.sum_replicate, nsmul_eq_mul, hne]

theorem uniform_weights_length (n : ℕ) : (uniform_weights n).length = n := by
  simp [uniform_weights]

theorem uniform_weights_nonneg (n : ℕ) : ∀ x ∈ uniform_weights n, 0 ≤ x := by
  intro x hx
  simp only [uniform_weights, List.mem_replicate] at hx
  rw [hx.2]
  positivity

theorem add_assign_sum {a b : List ℚ} (h : a.length = b.length) :
    (add_assign a b).sum = a.sum + b.sum := by
  induction a generalizing b with
  | nil =>
      cases b with
      | nil => simp [add_assign]
      | cons x t => simp at h
  | cons x t ih =>
      cases b with
      | nil => simp at h
      | cons y u =>
          simp only [List.length_cons, Nat.succ_inj] at h
          simp only [add_assign, List.zipWith_cons_cons, List.sum_cons] at *
          rw [ih h]
          ring

theorem add_assign_length (a b : List ℚ) :
    (add_assign a b).length = min a.length b.length := by
  simp [add_assign]

/-! ## CFR+ / original matcher (`src/cfr_plus.rs`, identical update logic in
`src/regret_matcher.rs`)

State fields mirror the Rust struct; the `dist` sampler field is derived
from `p` and is not part of the modelled state (its construction
precondition is `validWeights`). -/

structure CfrPlusRegretMatcher where
  p : List ℚ
  sum_p : List ℚ
  expert_reward : List ℚ
  cumulative_reward : ℚ
  num_updates : ℕ
deriving DecidableEq, Repr

namespace CfrPlusRegretMatcher

/-- `CfrPlusRegretMatcher::init_weights`. -/
def init_weights (num_experts : ℕ) : List ℚ :=
  uniform_weights num_experts

/-- `CfrPlusRegretMatcher::new` (via `new_from_p` of the uniform vector). -/
def new (num_experts : ℕ) : CfrPlusRegretMatcher :=
  { p := init_weights num_experts
    sum_p := List.replicate num_experts 0
    expert_reward := List.replicate num_experts 0
    cumulative_reward := 0
    num_updates := 0 }

/-- The unclipped regret vector `expert_reward - cumulative_reward`
(line 85 of `cfr_plus.rs`), as a function of the current state. -/
def regretVec (m : CfrPlusRegretMatcher) : List ℚ :=
  m.expert_reward.map (fun x => x - m.cumulative_reward)

/-- The `regret_sum` value computed inside `update_regret` (the sum of
the clipped regrets after folding in `rewards`), exposed as its own
definition so the branch condition can be named in theorems. -/
def regret_sum_after (m : CfrPlusRegretMatcher) (rewards : List ℚ) : ℚ :=
  let cumulative_reward := m.cumulative_reward + dot m.p rewards
  let expert_reward := add_assign m.expert_reward rewards
  (clipNonneg (expert_reward.map (fun x => x - cumulative_reward))).sum

/-- `CfrPlusRegretMatcher::update_regret` (lines 77–105 of
`cfr_plus.rs`): accumulate the expected reward into
`cumulative_reward`, the rewards into `expert_reward`, clip the regret
`expert_reward - cumulative_reward` to non-negative; if the clipped sum
is `≤ 0` reset (`p` uniform, reward state and counter zeroed, `sum_p`
untouched), otherwise normalize to get the new `p`, accumulate it into
`sum_p` and increment the counter.  The final `dist` rebuild is a
derived-structure update and carries no state beyond `p`. -/
def update_regret (m : CfrPlusRegretMatcher) (rewards : List ℚ) : CfrPlusRegretMatcher :=
  let num_experts := m.p.length
  let cumulative_reward := m.cumulative_reward + dot m.p rewards
  let expert_reward := add_assign m.expert_reward rewards
  let capped_regret := clipNonneg (expert_reward.map (fun x => x - cumulative_reward))
  let regret_sum := capped_regret.sum
  if regret_sum ≤ 0 then
    { p := init_weights num_experts
      sum_p := m.sum_p
      expert_reward := List.replicate num_experts 0
      cumulative_reward := 0
      num_updates := 0 }
  else
    let newP := scaleDiv capped_regret regret_sum
    { p := newP
      sum_p := add_assign m.sum_p newP
      expert_reward := expert_reward
      cumulative_reward := cumulative_reward
      num_updates := m.num_updates + 1 }

/-- `CfrPlusRegretMatcher::best_weight` (lines 107–109 of
`cfr_plus.rs`): `(self.sum_p.clone() / self.num_updates as f32)`.
There is no fallback branch: when `num_updates = 0` the source divides
by `0.0` (producing `NaN` or `inf`); in the rational model the division
by zero is `0` — in both semantics the result is not a probability
vector. -/
def best_weight (m : CfrPlusRegretMatcher) : List ℚ :=
  scaleDiv m.sum_p (m.num_updates : ℚ)

/-- `current_strategy` accessor (the `p` field). -/
def current_strategy (m : CfrPlusRegretMatcher) : List ℚ := m.p

/-- `cumulative_strategy` accessor (the `sum_p` field). -/
def cumulative_strategy (m : CfrPlusRegretMatcher) : List ℚ := m.sum_p

/-- State after constructing with `num_experts = n` and applying
`update_regret` once per element of `rs`, in order. -/
def run (n : ℕ) (rs : List (List ℚ)) : CfrPlusRegretMatcher :=
  rs.foldl update_regret (new n)

end CfrPlusRegretMatcher

/-! ## DCFR matcher (`src/dcfr.rs`)

The source computes `positive_discount = discount_factor(t, alpha)`,
`negative_discount = discount_factor(t, beta)` and
`strategy_discount = (t/(t+1))^gamma` with `f32::powf`.  Those values
are irrational for the shipped presets, so the update is parameterized
by arbitrary rational-valued schedules `posD`, `negD`, `sd` of the
iteration `t`; every theorem below is proved for all schedules, which
covers the concrete instantiations. -/

structure DiscountedRegretMatcher where
  p : List ℚ
  sum_p : List ℚ
  cumulative_regret : List ℚ
  num_updates : ℕ
deriving DecidableEq, Repr

namespace DiscountedRegretMatcher

/-- `DiscountedRegretMatcher::init_weights`. -/
def init_weights (num_experts : ℕ) : List ℚ :=
  uniform_weights num_experts

/-- `DiscountedRegretMatcher::new_with_params` (the `params` field is
carried by the schedule arguments of `update_regret` instead of the
state). -/
def new (num_experts : ℕ) : DiscountedRegretMatcher :=
  { p := init_weights num_experts
    sum_p := List.replicate num_experts 0
    cumulative_regret := List.replicate num_experts 0
    num_updates := 0 }

/-- The cumulative-regret vector computed at lines 127–135 of
`dcfr.rs`: scale each prior entry by the sign-dependent discount, then
add the instantaneous regret.  No clipping is stored. -/
def regret_state_after (posD negD : ℕ → ℚ) (m : DiscountedRegretMatcher)
    (rewards : List ℚ) : List ℚ :=
  let t := m.num_updates + 1
  let expected_reward := dot m.p rewards
  let instantaneous_regret := rewards.map (fun x => x - expected_reward)
  List.zipWith
    (fun R r => R * (if 0 < R then posD t else negD t) + r)
    m.cumulative_regret instantaneous_regret

/-- The `regret_sum` branch value of `dcfr.rs` `update_regret`. -/
def regret_sum_after (posD negD : ℕ → ℚ) (m : DiscountedRegretMatcher)
    (rewards : List ℚ) : ℚ :=
  (clipNonneg (regret_state_after posD negD m rewards)).sum

/-- `DiscountedRegretMatcher::update_regret` (lines 113–158 of
`dcfr.rs`).  `posD t`, `negD t`, `sd t` stand for
`discount_factor(t, alpha)`, `discount_factor(t, beta)` and
`(t/(t+1))^gamma`. -/
def update_regret (posD negD sd : ℕ → ℚ) (m : DiscountedRegretMatcher)
    (rewards : List ℚ) : DiscountedRegretMatcher :=
  let num_experts := m.p.length
  let t := m.num_updates + 1
  let strategy_discount := sd t
  let cumulative_regret := regret_state_after posD negD m rewards
  let positive_regret := clipNonneg cumulative_regret
  let regret_sum := positive_regret.sum
  let newP :=
    if regret_sum ≤ 0 then init_weights num_experts
    else scaleDiv positive_regret regret_sum
  { p := newP
    sum_p := List.zipWith (fun s x => s * strategy_discount + x) m.sum_p newP
    cumulative_regret := cumulative_regret
    num_updates := m.num_updates + 1 }

/-- `DiscountedRegretMatcher::best_weight` (lines 160–167 of
`dcfr.rs`): normalize `sum_p` by its sum, uniform fallback when the sum
is `≤ 0`. -/
def best_weight (m : DiscountedRegretMatcher) : List ℚ :=
  if m.sum_p.sum ≤ 0 then init_weights m.p.length
  else scaleDiv m.sum_p m.sum_p.sum

/-- `current_strategy` accessor (the `p` field). -/
def current_strategy (m : DiscountedRegretMatcher) : List ℚ := m.p

/-- `cumulative_strategy` accessor (the `sum_p` field). -/
def cumulative_strategy (m : DiscountedRegretMatcher) : List ℚ := m.sum_p

/-- Run from a fresh matcher. -/
def run (posD negD sd : ℕ → ℚ) (n : ℕ) (rs : List (List ℚ)) :
    DiscountedRegretMatcher :=
  rs.foldl (update_regret posD negD sd) (new n)

end DiscountedRegretMatcher

/-! ## DCFR+ matcher (`src/dcfr_plus.rs`)

`d u` stands for `discount_factor(u, alpha)` and `sd t` for
`((t-1)/t)^gamma`; the `t > 1` gates of the source are kept. -/

structure DcfrPlusRegretMatcher where
  p : List ℚ
  sum_p : List ℚ
  cumulative_regret : List ℚ
  num_updates : ℕ
deriving DecidableEq, Repr

namespace DcfrPlusRegretMatcher

/-- `DcfrPlusRegretMatcher::init_weights`. -/
def init_weights (num_experts : ℕ) : List ℚ :=
  uniform_weights num_experts

/-- `DcfrPlusRegretMatcher::new_with_params` (parameters live in the
schedule arguments). -/
def new (num_experts : ℕ) : DcfrPlusRegretMatcher :=
  { p := init_weights num_experts
    sum_p := List.replicate num_experts 0
    cumulative_regret := List.replicate num_experts 0
    num_updates := 0 }

/-- The cumulative-regret vector computed at lines 130–135 of
`dcfr_plus.rs`: `R^t = max(0, R^{t-1} * d(t-1, α) + r^t)`, with
discount `0` on the first iteration. -/
def regret_state_after (d : ℕ → ℚ) (m : DcfrPlusRegretMatcher)
    (rewards : List ℚ) : List ℚ :=
  let t := m.num_updates + 1
  let regret_discount : ℚ := if 1 < t then d (t - 1) else 0
  let expected_reward := dot m.p rewards
  let instantaneous_regret := rewards.map (fun x => x - expected_reward)
  List.zipWith (fun R r => max 0 (R * regret_discount + r))
    m.cumulative_regret instantaneous_regret

/-- The `regret_sum` branch value of `dcfr_plus.rs` `update_regret`
(the stored regrets are already clipped, so no further clip). -/
def regret_sum_after (d : ℕ → ℚ) (m : DcfrPlusRegretMatcher)
    (rewards : List ℚ) : ℚ :=
  (regret_state_after d m rewards).sum

/-- `DcfrPlusRegretMatcher::update_regret` (lines 108–152 of
`dcfr_plus.rs`). -/
def update_regret (d sd : ℕ → ℚ) (m : DcfrPlusRegretMatcher)
    (rewards : List ℚ) : DcfrPlusRegretMatcher :=
  let num_experts := m.p.length
  let t := m.num_updates + 1
  let strategy_discount : ℚ := if 1 < t then sd t else 0
  let cumulative_regret := regret_state_after d m rewards
  let regret_sum := cumulative_regret.sum
  let newP :=
    if regret_sum ≤ 0 then init_weights num_experts
    else scaleDiv cumulative_regret regret_sum
  { p := newP
    sum_p := List.zipWith (fun s x => s * strategy_discount + x) m.sum_p newP
    cumulative_regret := cumulative_regret
    num_updates := m.num_updates + 1 }

/-- `DcfrPlusRegretMatcher::best_weight` (lines 154–161): normalize
`sum_p` by its sum, uniform fallback when the sum is `≤ 0`. -/
def best_weight (m : DcfrPlusRegretMatcher) : List ℚ :=
  if m.sum_p.sum ≤ 0 then init_weights m.p.length
  else scaleDiv m.sum_p m.sum_p.sum

/-- `current_strategy` accessor (the `p` field). -/
def current_strategy (m : DcfrPlusRegretMatcher) : List ℚ := m.p

/-- `cumulative_strategy` accessor (the `sum_p` field). -/
def cumulative_strategy (m : DcfrPlusRegretMatcher) : List ℚ := m.sum_p

/-- Run from a fresh matcher. -/
def run (d sd : ℕ → ℚ) (n : ℕ) (rs : List (List ℚ)) : DcfrPlusRegretMatcher :=
  rs.foldl (update_regret d sd) (new n)

end DcfrPlusRegretMatcher

/-! ## Linear CFR matcher (`src/linear_cfr.rs`) -/

structure LinearCfrRegretMatcher where
  p : List ℚ
  sum_p : List ℚ
  cumulative_regret : List ℚ
  num_updates : ℕ
deriving DecidableEq, Repr

namespace LinearCfrRegretMatcher

/-- `LinearCfrRegretMatcher::init_weights`. -/
def init_weights (num_experts : ℕ) : List ℚ :=
  uniform_weights num_experts

/-- `LinearCfrRegretMatcher::new`. -/
def new (num_experts : ℕ) : LinearCfrRegretMatcher :=
  { p := init_weights num_experts
    sum_p := List.replicate num_experts 0
    cumulative_regret := List.replicate num_experts 0
    num_updates := 0 }

/-- The cumulative-regret vector computed at line 71 of
`linear_cfr.rs`: `R^t = R^{t-1} + r^t * t` (no clipping stored). -/
def regret_state_after (m : LinearCfrRegretMatcher) (rewards : List ℚ) : List ℚ :=
  let t : ℚ := ((m.num_updates + 1 : ℕ) : ℚ)
  let expected_reward := dot m.p rewards
  let instantaneous_regret := rewards.map (fun x => x - expected_reward)
  List.zipWith (fun R r => R + r * t) m.cumulative_regret instantaneous_regret

/-- The `regret_sum` branch value of `linear_cfr.rs` `update_regret`. -/
def regret_sum_after (m : LinearCfrRegretMatcher) (rewards : List ℚ) : ℚ :=
  (clipNonneg (regret_state_after m rewards)).sum

/-- `LinearCfrRegretMatcher::update_regret` (lines 62–94 of
`linear_cfr.rs`). -/
def update_regret (m : LinearCfrRegretMatcher) (rewards : List ℚ) :
    LinearCfrRegretMatcher :=
  let num_experts := m.p.length
  let t : ℚ := ((m.num_updates + 1 : ℕ) : ℚ)
  let cumulative_regret := regret_state_after m rewards
  let positive_regret := clipNonneg cumulative_regret
  let regret_sum := positive_regret.sum
  let newP :=
    if regret_sum ≤ 0 then init_weights num_experts
    else scaleDiv positive_regret regret_sum
  { p := newP
    sum_p := List.zipWith (fun s x => s + x * t) m.sum_p newP
    cumulative_regret := cumulative_regret
    num_updates := m.num_updates + 1 }

/-- `LinearCfrRegretMatcher::best_weight` (lines 96–103): normalize
`sum_p` by its sum, uniform fallback when the sum is `≤ 0`. -/
def best_weight (m : LinearCfrRegretMatcher) : List ℚ :=
  if m.sum_p.sum ≤ 0 then init_weights m.p.length
  else scaleDiv m.sum_p m.sum_p.sum

/-- `current_strategy` accessor (the `p` field). -/
def current_strategy (m : LinearCfrRegretMatcher) : List ℚ := m.p

/-- `cumulative_strategy` accessor (the `sum_p` field). -/
def cumulative_strategy (m : LinearCfrRegretMatcher) : List ℚ := m.sum_p

/-- Run from a fresh matcher. -/
def run (n : ℕ) (rs : List (List ℚ)) : LinearCfrRegretMatcher :=
  rs.foldl update_regret (new n)

end LinearCfrRegretMatcher

/-! ## PCFR+ matcher (`src/pcfr_plus.rs`) -/

structure PcfrPlusRegretMatcher where
  p : List ℚ
  sum_p : List ℚ
  cumulative_regret : List ℚ
  last_instantaneous_regret : List ℚ
  num_updates : ℕ
deriving DecidableEq, Repr

namespace PcfrPlusRegretMatcher

/-- `PcfrPlusRegretMatcher::init_weights`. -/
def init_weights (num_experts : ℕ) : List ℚ :=
  uniform_weights num_experts

/-- `PcfrPlusRegretMatcher::new`. -/
def new (num_experts : ℕ) : PcfrPlusRegretMatcher :=
  { p := init_weights num_experts
    sum_p := List.replicate num_experts 0
    cumulative_regret := List.replicate num_experts 0
    last_instantaneous_regret := List.replicate num_experts 0
    num_updates := 0 }

/-- The cumulative-regret vector computed at lines 74–77 of
`pcfr_plus.rs`: `R^t = max(0, R^{t-1} + r^t)`. -/
def regret_state_after (m : PcfrPlusRegretMatcher) (rewards : List ℚ) : List ℚ :=
  let expected_reward := dot m.p rewards
  let instantaneous_regret := rewards.map (fun x => x - expected_reward)
  List.zipWith (fun R r => max 0 (R + r))
    m.cumulative_regret instantaneous_regret

/-- The predicted-regret vector of lines 84–89:
`max(0, R^t + v)` with `v` the just-stored instantaneous regret. -/
def predicted_regret_after (m : PcfrPlusRegretMatcher) (rewards : List ℚ) : List ℚ :=
  let expected_reward := dot m.p rewards
  let instantaneous_regret := rewards.map (fun x => x - expected_reward)
  List.zipWith (fun R v => max 0 (R + v))
    (regret_state_after m rewards) instantaneous_regret

/-- The `regret_sum` branch value of `pcfr_plus.rs` `update_regret`
(sum of the predicted regrets). -/
def regret_sum_after (m : PcfrPlusRegretMatcher) (rewards : List ℚ) : ℚ :=
  (predicted_regret_after m rewards).sum

/-- `PcfrPlusRegretMatcher::update_regret` (lines 65–107 of
`pcfr_plus.rs`). -/
def update_regret (m : PcfrPlusRegretMatcher) (rewards : List ℚ) :
    PcfrPlusRegretMatcher :=
  let num_experts := m.p.length
  let t := m.num_updates + 1
  let expected_reward := dot m.p rewards
  let instantaneous_regret := rewards.map (fun x => x - expected_reward)
  let cumulative_regret := regret_state_after m rewards
  let predicted_regret := predicted_regret_after m rewards
  let regret_sum := predicted_regret.sum
  let newP :=
    if regret_sum ≤ 0 then init_weights num_experts
    else scaleDiv predicted_regret regret_sum
  let weight : ℚ := ((t * t : ℕ) : ℚ)
  { p := newP
    sum_p := List.zipWith (fun s x => s + x * weight) m.sum_p newP
    cumulative_regret := cumulative_regret
    last_instantaneous_regret := instantaneous_regret
    num_updates := m.num_updates + 1 }

/-- `PcfrPlusRegretMatcher::best_weight` (lines 109–116): normalize
`sum_p` by its sum, uniform fallback when the sum is `≤ 0`. -/
def best_weight (m : PcfrPlusRegretMatcher) : List ℚ :=
  if m.sum_p.sum ≤ 0 then init_weights m.p.length
  else scaleDiv m.sum_p m.sum_p.sum

/-- `current_strategy` accessor (the `p` field). -/
def current_strategy (m : PcfrPlusRegretMatcher) : List ℚ := m.p

/-- `cumulative_strategy` accessor (the `sum_p` field). -/
def cumulative_strategy (m : PcfrPlusRegretMatcher) : List ℚ := m.sum_p

/-- Run from a fresh matcher. -/
def run (n : ℕ) (rs : List (List ℚ)) : PcfrPlusRegretMatcher :=
  rs.foldl update_regret (new n)

end PcfrPlusRegretMatcher

/-! ## PDCFR+ matcher (`src/pdcfr_plus.rs`)

`d u` stands for `discount_factor(u, alpha)` and `sd t` for
`((t-1)/t)^gamma`. -/

structure PdcfrPlusRegretMatcher where
  p : List ℚ
  sum_p : List ℚ
  cumulative_regret : List ℚ
  last_instantaneous_regret : List ℚ
  num_updates : ℕ
deriving DecidableEq, Repr

namespace PdcfrPlusRegretMatcher

/-- `PdcfrPlusRegretMatcher::init_weights`. -/
def init_weights (num_experts : ℕ) : List ℚ :=
  uniform_weights num_experts

/-- `PdcfrPlusRegretMatcher::new_with_params` (parameters live in the
schedule arguments). -/
def new (num_experts : ℕ) : PdcfrPlusRegretMatcher :=
  { p := init_weights num_experts
    sum_p := List.replicate num_experts 0
    cumulative_regret := List.replicate num_experts 0
    last_instantaneous_regret := List.replicate num_experts 0
    num_updates := 0 }

/-- The cumulative-regret vector computed at lines 136–140 of
`pdcfr_plus.rs`: `R^t = max(0, R^{t-1} * d(t-1, α) + r^t)`, with
discount `0` on the first iteration. -/
def regret_state_after (d : ℕ → ℚ) (m : PdcfrPlusRegretMatcher)
    (rewards : List ℚ) : List ℚ :=
  let t := m.num_updates + 1
  let prev_regret_discount : ℚ := if 1 < t then d (t - 1) else 0
  let expected_reward := dot m.p rewards
  let instantaneous_regret := rewards.map (fun x => x - expected_reward)
  List.zipWith (fun R r => max 0 (R * prev_regret_discount + r))
    m.cumulative_regret instantaneous_regret

/-- The predicted-regret vector of lines 145–152:
`max(0, R^t * d(t, α) + v)` with `v` the just-stored instantaneous
regret (the `d t` discount is unconditional in the source). -/
def predicted_regret_after (d : ℕ → ℚ) (m : PdcfrPlusRegretMatcher)
    (rewards : List ℚ) : List ℚ :=
  let t := m.num_updates + 1
  let curr_regret_discount := d t
  let expected_reward := dot m.p rewards
  let instantaneous_regret := rewards.map (fun x => x - expected_reward)
  List.zipWith (fun R v => max 0 (R * curr_regret_discount + v))
    (regret_state_after d m rewards) instantaneous_regret

/-- The `regret_sum` branch value of `pdcfr_plus.rs` `update_regret`
(sum of the predicted regrets). -/
def regret_sum_after (d : ℕ → ℚ) (m : PdcfrPlusRegretMatcher)
    (rewards : List ℚ) : ℚ :=
  (predicted_regret_after d m rewards).sum

/-- `PdcfrPlusRegretMatcher::update_regret` (lines 113–169 of
`pdcfr_plus.rs`). -/
def update_regret (d sd : ℕ → ℚ) (m : PdcfrPlusRegretMatcher)
    (rewards : List ℚ) : PdcfrPlusRegretMatcher :=
  let num_experts := m.p.length
  let t := m.num_updates + 1
  let strategy_discount : ℚ := if 1 < t then sd t else 0
  let expected_reward := dot m.p rewards
  let instantaneous_regret := rewards.map (fun x => x - expected_reward)
  let cumulative_regret := regret_state_after d m rewards
  let predicted_regret := predicted_regret_after d m rewards
  let regret_sum := predicted_regret.sum
  let newP :=
    if regret_sum ≤ 0 then init_weights num_experts
    else scaleDiv predicted_regret regret_sum
  { p := newP
    sum_p := List.zipWith (fun s x => s * strategy_discount + x) m.sum_p newP
    cumulative_regret := cumulative_regret
    last_instantaneous_regret := instantaneous_regret
    num_updates := m.num_updates + 1 }

/-- `PdcfrPlusRegretMatcher::best_weight` (lines 171–178): normalize
`sum_p` by its sum, uniform fallback when the sum is `≤ 0`. -/
def best_weight (m : PdcfrPlusRegretMatcher) : List ℚ :=
  if m.sum_p.sum ≤ 0 then init_weights m.p.length
  else scaleDiv m.sum_p m.sum_p.sum

/-- `current_strategy` accessor (the `p` field). -/
def current_strategy (m : PdcfrPlusRegretMatcher) : List ℚ := m.p

/-- `cumulative_strategy` accessor (the `sum_p` field). -/
def cumulative_strategy (m : PdcfrPlusRegretMatcher) : List ℚ := m.sum_p

/-- Run from a fresh matcher. -/
def run (d sd : ℕ → ℚ) (n : ℕ) (rs : List (List ℚ)) : PdcfrPlusRegretMatcher :=
  rs.foldl (update_regret d sd) (new n)

end PdcfrPlusRegretMatcher

/-! ### Concrete rational schedule instances (used by witnesses)

`discount_factor(t, 1) = t / (t + 1)` and the exponent-`1` strategy
discounts are exactly rational, so the `LCFR`-style preset
(`alpha = beta = gamma = 1`) gives computable instantiations. -/

/-- `discount_factor(t, 1) = t / (t + 1)` as an exact rational. -/
def linearDiscount (t : ℕ) : ℚ := (t : ℚ) / ((t : ℚ) + 1)

/-- `(t/(t+1))^1`, the DCFR strategy discount at `gamma = 1`. -/
def linearStrategyDiscount (t : ℕ) : ℚ := (t : ℚ) / ((t : ℚ) + 1)

/-- `((t-1)/t)^1`, the DCFR+/PDCFR+ strategy discount at `gamma = 1`
(only evaluated at `t > 1` by the updates). -/
def prevOverCurr (t : ℕ) : ℚ := ((t : ℚ) - 1) / (t : ℚ)

/-! ## Discount policy (`src/discount.rs`)

`DiscountParams::discount_factor(t, exp)` computes
`t^exp / (t^exp + 1)` with `f32::powf`; the idealized model uses real
exponentiation (`Real.rpow`). -/

namespace DiscountParams

/-- `DiscountParams::discount_factor` (lines 70–74 of `discount.rs`):
`t^exp / (t^exp + 1)` over the reals. -/
noncomputable def discount_factor (t : ℕ) (e : ℝ) : ℝ :=
  let t_f : ℝ := (t : ℝ)
  let t_pow : ℝ := t_f ^ e
  t_pow / (t_pow + 1)

end DiscountParams

/-! ## Self-play harness (`src/rps.rs`)

`next_action` draws from the sampler; the drawn indices are explicit
inputs of `run_one`.  `RPSAction::from` clamps the index into `[0, 2]`
and `to_reward` is the fixed zero-sum payoff table. -/

namespace RPSAction

/-- `RPSAction::from(usize)` (lines 45–63 of `rps.rs`): clamp the index
to `max(min(i, Scissors), Rock) = max(min(i, 2), 0)`. -/
def fromIndex (i : ℕ) : ℕ := max (min i 2) 0

/-- `RPSAction::to_reward` with the `ROCK_REWARD`, `PAPER_REWARD`,
`SCISSOR_REWARD` tables (lines 26–43 of `rps.rs`): the reward vector of
the three own actions given the opposing action. -/
def to_reward : ℕ → List ℚ
  | 0 => [0, 1, -1]
  | 1 => [-1, 0, 1]
  | _ => [1, -1, 0]

end RPSAction

/-- `RPSRunnerGeneric<M>` (lines 69–77 of `rps.rs`), generic over the
matcher state type. -/
structure RPSRunnerGeneric (M : Type) where
  matcher_one : M
  matcher_two : M
  pending_reward_one : List ℚ
  pending_reward_two : List ℚ

namespace RPSRunnerGeneric

/-- `RPSRunnerGeneric::new` given the matcher constructor: two fresh
3-expert matchers and zeroed pending buffers. -/
def new {M : Type} (newM : ℕ → M) : RPSRunnerGeneric M :=
  { matcher_one := newM 3
    matcher_two := newM 3
    pending_reward_one := List.replicate 3 0
    pending_reward_two := List.replicate 3 0 }

/-- `RPSRunnerGeneric::run_one` (lines 112–118 of `rps.rs`), with the
two sampler draws `i1`, `i2` as explicit inputs: clamp each draw to an
action, add the reward table row of the *opposing* action into each
side's pending buffer; the matchers are untouched. -/
def run_one {M : Type} (r : RPSRunnerGeneric M) (i1 i2 : ℕ) : RPSRunnerGeneric M :=
  let a1 := RPSAction.fromIndex i1
  let a2 := RPSAction.fromIndex i2
  { r with
    pending_reward_one := add_assign r.pending_reward_one (RPSAction.to_reward a2)
    pending_reward_two := add_assign r.pending_reward_two (RPSAction.to_reward a1) }

/-- `RPSRunnerGeneric::update_regret` (lines 125–134 of `rps.rs`) given
the matcher update function `U`: apply each side's update once to its
own pending buffer, then `fill(0.0)` both buffers. -/
def update_regret {M : Type} (U : M → List ℚ → M) (r : RPSRunnerGeneric M) :
    RPSRunnerGeneric M :=
  { matcher_one := U r.matcher_one r.pending_reward_one
    matcher_two := U r.matcher_two r.pending_reward_two
    pending_reward_one := r.pending_reward_one.map (fun _ => 0)
    pending_reward_two := r.pending_reward_two.map (fun _ => 0) }

/-- `RPSRunnerGeneric::best_weight` given the matcher query. -/
def best_weight {M : Type} (bw : M → List ℚ) (r : RPSRunnerGeneric M) : List ℚ :=
  bw r.matcher_one

/-- `RPSRunnerGeneric::opponent_best_weight` given the matcher query. -/
def opponent_best_weight {M : Type} (bw : M → List ℚ) (r : RPSRunnerGeneric M) :
    List ℚ :=
  bw r.matcher_two

end RPSRunnerGeneric

/-! ## Spec-side machines for the C3 refinement claim -/

/-- Modelled from the spec: the clip-after-accumulate rule of §4.4,
`R_i = max(0, R_i + r_i)` applied at every update with
`r_i = reward_i - dot(current strategy, rewards)`, the strategy derived
from `R` by clip-negative-then-normalize with uniform fallback.  This
is the comparison object of the refinement claim, not code of the
repository. -/
structure SpecClipMatcher where
  R : List ℚ
  p : List ℚ
deriving DecidableEq, Repr

namespace SpecClipMatcher

/-- Fresh spec machine: zero regrets, uniform strategy. -/
def new (num_experts : ℕ) : SpecClipMatcher :=
  { R := List.replicate num_experts 0
    p := uniform_weights num_experts }

/-- One spec update: `R_i := max(0, R_i + r_i)`, then regret-match. -/
def update (m : SpecClipMatcher) (rewards : List ℚ) : SpecClipMatcher :=
  let num_experts := m.p.length
  let expected_reward := dot m.p rewards
  let instantaneous_regret := rewards.map (fun x => x - expected_reward)
  let R := List.zipWith (fun Ri ri => max 0 (Ri + ri)) m.R instantaneous_regret
  let capped := clipNonneg R
  let s := capped.sum
  { R := R
    p := if s ≤ 0 then uniform_weights num_experts else scaleDiv capped s }

/-- Run from a fresh spec machine. -/
def run (n : ℕ) (rs : List (List ℚ)) : SpecClipMatcher :=
  rs.foldl update (new n)

end SpecClipMatcher

/-- Modelled from the amended rule: plain accumulation
`R_i := R_i + r_i` with clipping only at strategy derivation
(accumulate-then-clip, i.e. vanilla regret matching), and the CFR+
degenerate branch mirrored as `R := 0`, strategy uniform.  This is the
comparison object of the amended refinement claim. -/
structure AccumThenClipMatcher where
  R : List ℚ
  p : List ℚ
deriving DecidableEq, Repr

namespace AccumThenClipMatcher

/-- Fresh machine: zero regrets, uniform strategy. -/
def new (num_experts : ℕ) : AccumThenClipMatcher :=
  { R := List.replicate num_experts 0
    p := uniform_weights num_experts }

/-- One update: `R_i := R_i + r_i` unclipped; derive the strategy from
the clipped copy; on a degenerate clipped sum reset `R` to zero and the
strategy to uniform. -/
def update (m : AccumThenClipMatcher) (rewards : List ℚ) : AccumThenClipMatcher :=
  let num_experts := m.p.length
  let expected_reward := dot m.p rewards
  let instantaneous_regret := rewards.map (fun x => x - expected_reward)
  let R := List.zipWith (· + ·) m.R instantaneous_regret
  let capped := clipNonneg R
  let s := capped.sum
  if s ≤ 0 then
    { R := List.replicate num_experts 0
      p := uniform_weights num_experts }
  else
    { R := R
      p := scaleDiv capped s }

/-- Run from a fresh machine. -/
def run (n : ℕ) (rs : List (List ℚ)) : AccumThenClipMatcher :=
  rs.foldl update (new n)

end AccumThenClipMatcher

/-! ## Generic lemmas about the strategy-derivation branch -/

theorem ite_norm_sum {n : ℕ} (hn : 1 ≤ n) (v : List ℚ) :
    (if v.sum ≤ 0 then uniform_weights n else scaleDiv v v.sum).sum = 1 := by
  split_ifs with h
  · exact uniform_weights_sum hn
  · rw [scaleDiv_sum]
    exact div_self (ne_of_gt (not_le.mp h))

theorem ite_norm_nonneg {n : ℕ} (v : List ℚ) (hv : ∀ x ∈ v, 0 ≤ x) :
    ∀ x ∈ (if v.sum ≤ 0 then uniform_weights n else scaleDiv v v.sum), 0 ≤ x := by
  split_ifs with h
  · exact uniform_weights_nonneg n
  · exact scaleDiv_nonneg hv (le_of_lt (not_le.mp h))

theorem ite_norm_length {n : ℕ} {v : List ℚ} (hvl : v.length = n) :
    (if v.sum ≤ 0 then uniform_weights n else scaleDiv v v.sum).length = n := by
  split_ifs with h
  · exact uniform_weights_length n
  · rw [scaleDiv_length, hvl]

/-- Pointwise `max 0` under a `zipWith` is the `clipNonneg` of the raw
`zipWith`. -/
theorem zipWith_max_eq_clip (f : ℚ → ℚ → ℚ) (a b : List ℚ) :
    List.zipWith (fun u v => max 0 (f u v)) a b = clipNonneg (List.zipWith f a b) := by
  rw [clipNonneg, List.map_zipWith]

/-- Invariant preservation along a `foldl` over well-formed reward
vectors. -/
theorem foldl_inv {S : Type} (upd : S → List ℚ → S) (P : S → Prop) (n : ℕ)
    (step : ∀ s r, P s → r.length = n → P (upd s r)) :
    ∀ (rs : List (List ℚ)) (s : S), P s → (∀ r ∈ rs, r.length = n) →
      P (rs.foldl upd s) := by
  intro rs
  induction rs with
  | nil => intro s hs _; simpa using hs
  | cons r t ih =>
      intro s hs hwf
      simp only [List.foldl_cons]
      refine ih (upd s r) (step s r hs (hwf r (List.mem_cons_self r t))) ?_
      intro q hq
      exact hwf q (List.mem_cons_of_mem r hq)

/-! ## Well-formedness invariants of the matcher states -/

namespace DiscountedRegretMatcher

/-- Reachability invariant: all vectors have the construction length
and the current strategy is a probability vector. -/
def WF (n : ℕ) (m : DiscountedRegretMatcher) : Prop :=
  m.p.length = n ∧ m.sum_p.length = n ∧ m.cumulative_regret.length = n ∧
    (∀ x ∈ m.p, 0 ≤ x) ∧ m.p.sum = 1

theorem dcfr_update_p (posD negD sd : ℕ → ℚ) (m : DiscountedRegretMatcher)
    (rw : List ℚ) :
    (update_regret posD negD sd m rw).p =
      if (clipNonneg (regret_state_after posD negD m rw)).sum ≤ 0 then
        uniform_weights m.p.length
      else
        scaleDiv (clipNonneg (regret_state_after posD negD m rw))
          (clipNonneg (regret_state_after posD negD m rw)).sum := rfl

theorem dcfr_update_sum_p (posD negD sd : ℕ → ℚ) (m : DiscountedRegretMatcher)
    (rw : List ℚ) :
    (update_regret posD negD sd m rw).sum_p =
      List.zipWith (fun s x => s * sd (m.num_updates + 1) + x) m.sum_p
        ((update_regret posD negD sd m rw).p) := rfl

theorem dcfr_update_cumulative_regret (posD negD sd : ℕ → ℚ)
    (m : DiscountedRegretMatcher) (rw : List ℚ) :
    (update_regret posD negD sd m rw).cumulative_regret =
      regret_state_after posD negD m rw := rfl

theorem dcfr_update_num_updates (posD negD sd : ℕ → ℚ) (m : DiscountedRegretMatcher)
    (rw : List ℚ) :
    (update_regret posD negD sd m rw).num_updates = m.num_updates + 1 := rfl

theorem dcfr_regret_state_length (posD negD : ℕ → ℚ) (m : DiscountedRegretMatcher)
    (rw : List ℚ) :
    (regret_state_after posD negD m rw).length =
      min m.cumulative_regret.length rw.length := by
  simp [regret_state_after]

theorem dcfr_wf_new {n : ℕ} (hn : 1 ≤ n) : WF n (new n) := by
  refine ⟨uniform_weights_length n, ?_, ?_, uniform_weights_nonneg n,
    uniform_weights_sum hn⟩ <;> simp [new]

theorem dcfr_wf_update {n : ℕ} (hn : 1 ≤ n) (posD negD sd : ℕ → ℚ)
    {m : DiscountedRegretMatcher} {rw : List ℚ} (hm : WF n m)
    (hrw : rw.length = n) : WF n (update_regret posD negD sd m rw) := by
  obtain ⟨hp, hsp, hcr, hpn, hps⟩ := hm
  have hreg : (regret_state_after posD negD m rw).length = n := by
    rw [dcfr_regret_state_length, hcr, hrw, min_self]
  have hclip : (clipNonneg (regret_state_after posD negD m rw)).length = n := by
    rw [clipNonneg_length, hreg]
  have hplen : (update_regret posD negD sd m rw).p.length = n := by
    rw [dcfr_update_p, hp]
    exact ite_norm_length hclip
  refine ⟨hplen, ?_, ?_, ?_, ?_⟩
  · rw [dcfr_update_sum_p]
    simp only [List.length_zipWith]
    rw [hsp, hplen, min_self]
  · rw [dcfr_update_cumulative_regret]
    exact hreg
  · rw [dcfr_update_p, hp]
    exact ite_norm_nonneg _ (clipNonneg_nonneg _)
  · rw [dcfr_update_p, hp]
    exact ite_norm_sum hn _

theorem dcfr_wf_run {n : ℕ} (hn : 1 ≤ n) (posD negD sd : ℕ → ℚ)
    {rs : List (List ℚ)} (hrs : ∀ r ∈ rs, r.length = n) :
    WF n (run posD negD sd n rs) :=
  foldl_inv _ (WF n) n (fun _ _ hs hr => dcfr_wf_update hn posD negD sd hs hr)
    rs (new n) (dcfr_wf_new hn) hrs

theorem dcfr_best_weight_sum {n : ℕ} (hn : 1 ≤ n) {m : DiscountedRegretMatcher}
    (hm : WF n m) : m.best_weight.sum = 1 := by
  obtain ⟨hp, _, _, _, _⟩ := hm
  unfold best_weight init_weights
  rw [hp]
  exact ite_norm_sum hn m.sum_p

theorem dcfr_best_weight_length {n : ℕ} {m : DiscountedRegretMatcher}
    (hm : WF n m) : m.best_weight.length = n := by
  obtain ⟨hp, hsp, _, _, _⟩ := hm
  unfold best_weight init_weights
  rw [hp]
  exact ite_norm_length hsp

end DiscountedRegretMatcher

namespace DcfrPlusRegretMatcher

/-- Reachability invariant: all vectors have the construction length
and the current strategy is a probability vector. -/
def WF (n : ℕ) (m : DcfrPlusRegretMatcher) : Prop :=
  m.p.length = n ∧ m.sum_p.length = n ∧ m.cumulative_regret.length = n ∧
    (∀ x ∈ m.p, 0 ≤ x) ∧ m.p.sum = 1

theorem dcfrp_update_p (d sd : ℕ → ℚ) (m : DcfrPlusRegretMatcher) (rw : List ℚ) :
    (update_regret d sd m rw).p =
      if (regret_state_after d m rw).sum ≤ 0 then uniform_weights m.p.length
      else scaleDiv (regret_state_after d m rw) (regret_state_after d m rw).sum := rfl

theorem dcfrp_update_sum_p (d sd : ℕ → ℚ) (m : DcfrPlusRegretMatcher) (rw : List ℚ) :
    (update_regret d sd m rw).sum_p =
      List.zipWith
        (fun s x => s * (if 1 < m.num_updates + 1 then sd (m.num_updates + 1) else 0) + x)
        m.sum_p ((update_regret d sd m rw).p) := rfl

theorem dcfrp_update_cumulative_regret (d sd : ℕ → ℚ) (m : DcfrPlusRegretMatcher)
    (rw : List ℚ) :
    (update_regret d sd m rw).cumulative_regret = regret_state_after d m rw := rfl

theorem dcfrp_update_num_updates (d sd : ℕ → ℚ) (m : DcfrPlusRegretMatcher)
    (rw : List ℚ) :
    (update_regret d sd m rw).num_updates = m.num_updates + 1 := rfl

theorem dcfrp_regret_state_length (d : ℕ → ℚ) (m : DcfrPlusRegretMatcher)
    (rw : List ℚ) :
    (regret_state_after d m rw).length = min m.cumulative_regret.length rw.length := by
  simp [regret_state_after]

theorem dcfrp_regret_state_nonneg (d : ℕ → ℚ) (m : DcfrPlusRegretMatcher)
    (rw : List ℚ) : ∀ x ∈ regret_state_after d m rw, 0 ≤ x := by
  unfold regret_state_after
  rw [zipWith_max_eq_clip]
  exact clipNonneg_nonneg _

theorem dcfrp_wf_new {n : ℕ} (hn : 1 ≤ n) : WF n (new n) := by
  refine ⟨uniform_weights_length n, ?_, ?_, uniform_weights_nonneg n,
    uniform_weights_sum hn⟩ <;> simp [new]

theorem dcfrp_wf_update {n : ℕ} (hn : 1 ≤ n) (d sd : ℕ → ℚ)
    {m : DcfrPlusRegretMatcher} {rw : List ℚ} (hm : WF n m)
    (hrw : rw.length = n) : WF n (update_regret d sd m rw) := by
  obtain ⟨hp, hsp, hcr, hpn, hps⟩ := hm
  have hreg : (regret_state_after d m rw).length = n := by
    rw [dcfrp_regret_state_length, hcr, hrw, min_self]
  have hplen : (update_regret d sd m rw).p.length = n := by
    rw [dcfrp_update_p, hp]
    exact ite_norm_length hreg
  refine ⟨hplen, ?_, ?_, ?_, ?_⟩
  · rw [dcfrp_update_sum_p]
    simp only [List.length_zipWith]
    rw [hsp, hplen, min_self]
  · rw [dcfrp_update_cumulative_regret]
    exact hreg
  · rw [dcfrp_update_p, hp]
    exact ite_norm_nonneg _ (dcfrp_regret_state_nonneg d m rw)
  · rw [dcfrp_update_p, hp]
    exact ite_norm_sum hn _

theorem dcfrp_wf_run {n : ℕ} (hn : 1 ≤ n) (d sd : ℕ → ℚ)
    {rs : List (List ℚ)} (hrs : ∀ r ∈ rs, r.length = n) :
    WF n (run d sd n rs) :=
  foldl_inv _ (WF n) n (fun _ _ hs hr => dcfrp_wf_update hn d sd hs hr)
    rs (new n) (dcfrp_wf_new hn) hrs

theorem dcfrp_best_weight_sum {n : ℕ} (hn : 1 ≤ n) {m : DcfrPlusRegretMatcher}
    (hm : WF n m) : m.best_weight.sum = 1 := by
  obtain ⟨hp, _, _, _, _⟩ := hm
  unfold best_weight init_weights
  rw [hp]
  exact ite_norm_sum hn m.sum_p

theorem dcfrp_best_weight_length {n : ℕ} {m : DcfrPlusRegretMatcher}
    (hm : WF n m) : m.best_weight.length = n := by
  obtain ⟨hp, hsp, _, _, _⟩ := hm
  unfold best_weight init_weights
  rw [hp]
  exact ite_norm_length hsp

end DcfrPlusRegretMatcher

namespace LinearCfrRegretMatcher

/-- Reachability invariant: all vectors have the construction length
and the current strategy is a probability vector. -/
def WF (n : ℕ) (m : LinearCfrRegretMatcher) : Prop :=
  m.p.length = n ∧ m.sum_p.length = n ∧ m.cumulative_regret.length = n ∧
    (∀ x ∈ m.p, 0 ≤ x) ∧ m.p.sum = 1

theorem lcfr_update_p (m : LinearCfrRegretMatcher) (rw : List ℚ) :
    (update_regret m rw).p =
      if (clipNonneg (regret_state_after m rw)).sum ≤ 0 then
        uniform_weights m.p.length
      else
        scaleDiv (clipNonneg (regret_state_after m rw))
          (clipNonneg (regret_state_after m rw)).sum := rfl

theorem lcfr_update_sum_p (m : LinearCfrRegretMatcher) (rw : List ℚ) :
    (update_regret m rw).sum_p =
      List.zipWith (fun s x => s + x * ((m.num_updates + 1 : ℕ) : ℚ)) m.sum_p
        ((update_regret m rw).p) := rfl

theorem lcfr_update_cumulative_regret (m : LinearCfrRegretMatcher) (rw : List ℚ) :
    (update_regret m rw).cumulative_regret = regret_state_after m rw := rfl

theorem lcfr_update_num_updates (m : LinearCfrRegretMatcher) (rw : List ℚ) :
    (update_regret m rw).num_updates = m.num_updates + 1 := rfl

theorem lcfr_regret_state_length (m : LinearCfrRegretMatcher) (rw : List ℚ) :
    (regret_state_after m rw).length = min m.cumulative_regret.length rw.length := by
  simp [regret_state_after]

theorem lcfr_wf_new {n : ℕ} (hn : 1 ≤ n) : WF n (new n) := by
  refine ⟨uniform_weights_length n, ?_, ?_, uniform_weights_nonneg n,
    uniform_weights_sum hn⟩ <;> simp [new]

theorem lcfr_wf_update {n : ℕ} (hn : 1 ≤ n)
    {m : LinearCfrRegretMatcher} {rw : List ℚ} (hm : WF n m)
    (hrw : rw.length = n) : WF n (update_regret m rw) := by
  obtain ⟨hp, hsp, hcr, hpn, hps⟩ := hm
  have hreg : (regret_state_after m rw).length = n := by
    rw [lcfr_regret_state_length, hcr, hrw, min_self]
  have hclip : (clipNonneg (regret_state_after m rw)).length = n := by
    rw [clipNonneg_length, hreg]
  have hplen : (update_regret m rw).p.length = n := by
    rw [lcfr_update_p, hp]
    exact ite_norm_length hclip
  refine ⟨hplen, ?_, ?_, ?_, ?_⟩
  · rw [lcfr_update_sum_p]
    simp only [List.length_zipWith]
    rw [hsp, hplen, min_self]
  · rw [lcfr_update_cumulative_regret]
    exact hreg
  · rw [lcfr_update_p, hp]
    exact ite_norm_nonneg _ (clipNonneg_nonneg _)
  · rw [lcfr_update_p, hp]
    exact ite_norm_sum hn _

theorem lcfr_wf_run {n : ℕ} (hn : 1 ≤ n)
    {rs : List (List ℚ)} (hrs : ∀ r ∈ rs, r.length = n) :
    WF n (run n rs) :=
  foldl_inv _ (WF n) n (fun _ _ hs hr => lcfr_wf_update hn hs hr)
    rs (new n) (lcfr_wf_new hn) hrs

theorem lcfr_best_weight_sum {n : ℕ} (hn : 1 ≤ n) {m : LinearCfrRegretMatcher}
    (hm : WF n m) : m.best_weight.sum = 1 := by
  obtain ⟨hp, _, _, _, _⟩ := hm
  unfold best_weight init_weights
  rw [hp]
  exact ite_norm_sum hn m.sum_p

theorem lcfr_best_weight_length {n : ℕ} {m : LinearCfrRegretMatcher}
    (hm : WF n m) : m.best_weight.length = n := by
  obtain ⟨hp, hsp, _, _, _⟩ := hm
  unfold best_weight init_weights
  rw [hp]
  exact ite_norm_length hsp

end LinearCfrRegretMatcher

namespace PcfrPlusRegretMatcher

/-- Reachability invariant: all vectors have the construction length
and the current strategy is a probability vector. -/
def WF (n : ℕ) (m : PcfrPlusRegretMatcher) : Prop :=
  m.p.length = n ∧ m.sum_p.length = n ∧ m.cumulative_regret.length = n ∧
    (∀ x ∈ m.p, 0 ≤ x) ∧ m.p.sum = 1

theorem pcfrp_update_p (m : PcfrPlusRegretMatcher) (rw : List ℚ) :
    (update_regret m rw).p =
      if (predicted_regret_after m rw).sum ≤ 0 then uniform_weights m.p.length
      else scaleDiv (predicted_regret_after m rw) (predicted_regret_after m rw).sum := rfl

theorem pcfrp_update_sum_p (m : PcfrPlusRegretMatcher) (rw : List ℚ) :
    (update_regret m rw).sum_p =
      List.zipWith
        (fun s x => s + x * (((m.num_updates + 1) * (m.num_updates + 1) : ℕ) : ℚ))
        m.sum_p ((update_regret m rw).p) := rfl

theorem pcfrp_update_cumulative_regret (m : PcfrPlusRegretMatcher) (rw : List ℚ) :
    (update_regret m rw).cumulative_regret = regret_state_after m rw := rfl

theorem pcfrp_update_num_updates (m : PcfrPlusRegretMatcher) (rw : List ℚ) :
    (update_regret m rw).num_updates = m.num_updates + 1 := rfl

theorem pcfrp_regret_state_length (m : PcfrPlusRegretMatcher) (rw : List ℚ) :
    (regret_state_after m rw).length = min m.cumulative_regret.length rw.length := by
  simp [regret_state_after]

theorem pcfrp_predicted_regret_length (m : PcfrPlusRegretMatcher) (rw : List ℚ) :
    (predicted_regret_after m rw).length =
      min (min m.cumulative_regret.length rw.length) rw.length := by
  simp [predicted_regret_after, pcfrp_regret_state_length]

theorem pcfrp_predicted_regret_nonneg (m : PcfrPlusRegretMatcher) (rw : List ℚ) :
    ∀ x ∈ predicted_regret_after m rw, 0 ≤ x := by
  unfold predicted_regret_after
  rw [zipWith_max_eq_clip]
  exact clipNonneg_nonneg _

theorem pcfrp_wf_new {n : ℕ} (hn : 1 ≤ n) : WF n (new n) := by
  refine ⟨uniform_weights_length n, ?_, ?_, uniform_weights_nonneg n,
    uniform_weights_sum hn⟩ <;> simp [new]

theorem pcfrp_wf_update {n : ℕ} (hn : 1 ≤ n)
    {m : PcfrPlusRegretMatcher} {rw : List ℚ} (hm : WF n m)
    (hrw : rw.length = n) : WF n (update_regret m rw) := by
  obtain ⟨hp, hsp, hcr, hpn, hps⟩ := hm
  have hpred : (predicted_regret_after m rw).length = n := by
    rw [pcfrp_predicted_regret_length, hcr, hrw]
    simp
  have hplen : (update_regret m rw).p.length = n := by
    rw [pcfrp_update_p, hp]
    exact ite_norm_length hpred
  refine ⟨hplen, ?_, ?_, ?_, ?_⟩
  · rw [pcfrp_update_sum_p]
    simp only [List.length_zipWith]
    rw [hsp, hplen, min_self]
  · rw [pcfrp_update_cumulative_regret, pcfrp_regret_state_length, hcr, hrw, min_self]
  · rw [pcfrp_update_p, hp]
    exact ite_norm_nonneg _ (pcfrp_predicted_regret_nonneg m rw)
  · rw [pcfrp_update_p, hp]
    exact ite_norm_sum hn _

theorem pcfrp_wf_run {n : ℕ} (hn : 1 ≤ n)
    {rs : List (List ℚ)} (hrs : ∀ r ∈ rs, r.length = n) :
    WF n (run n rs) :=
  foldl_inv _ (WF n) n (fun _ _ hs hr => pcfrp_wf_update hn hs hr)
    rs (new n) (pcfrp_wf_new hn) hrs

theorem pcfrp_best_weight_sum {n : ℕ} (hn : 1 ≤ n) {m : PcfrPlusRegretMatcher}
    (hm : WF n m) : m.best_weight.sum = 1 := by
  obtain ⟨hp, _, _, _, _⟩ := hm
  unfold best_weight init_weights
  rw [hp]
  exact ite_norm_sum hn m.sum_p

theorem pcfrp_best_weight_length {n : ℕ} {m : PcfrPlusRegretMatcher}
    (hm : WF n m) : m.best_weight.length = n := by
  obtain ⟨hp, hsp, _, _, _⟩ := hm
  unfold best_weight init_weights
  rw [hp]
  exact ite_norm_length hsp

end PcfrPlusRegretMatcher

namespace PdcfrPlusRegretMatcher

/-- Reachability invariant: all vectors have the construction length
and the current strategy is a probability vector. -/
def WF (n : ℕ) (m : PdcfrPlusRegretMatcher) : Prop :=
  m.p.length = n ∧ m.sum_p.length = n ∧ m.cumulative_regret.length = n ∧
    (∀ x ∈ m.p, 0 ≤ x) ∧ m.p.sum = 1

theorem pdcfrp_update_p (d sd : ℕ → ℚ) (m : PdcfrPlusRegretMatcher) (rw : List ℚ) :
    (update_regret d sd m rw).p =
      if (predicted_regret_after d m rw).sum ≤ 0 then uniform_weights m.p.length
      else
        scaleDiv (predicted_regret_after d m rw)
          (predicted_regret_after d m rw).sum := rfl

theorem pdcfrp_update_sum_p (d sd : ℕ → ℚ) (m : PdcfrPlusRegretMatcher) (rw : List ℚ) :
    (update_regret d sd m rw).sum_p =
      List.zipWith
        (fun s x => s * (if 1 < m.num_updates + 1 then sd (m.num_updates + 1) else 0) + x)
        m.sum_p ((update_regret d sd m rw).p) := rfl

theorem pdcfrp_update_cumulative_regret (d sd : ℕ → ℚ) (m : PdcfrPlusRegretMatcher)
    (rw : List ℚ) :
    (update_regret d sd m rw).cumulative_regret = regret_state_after d m rw := rfl

theorem pdcfrp_update_num_updates (d sd : ℕ → ℚ) (m : PdcfrPlusRegretMatcher)
    (rw : List ℚ) :
    (update_regret d sd m rw).num_updates = m.num_updates + 1 := rfl

theorem pdcfrp_regret_state_length (d : ℕ → ℚ) (m : PdcfrPlusRegretMatcher)
    (rw : List ℚ) :
    (regret_state_after d m rw).length = min m.cumulative_regret.length rw.length := by
  simp [regret_state_after]

theorem pdcfrp_predicted_regret_length (d : ℕ → ℚ) (m : PdcfrPlusRegretMatcher)
    (rw : List ℚ) :
    (predicted_regret_after d m rw).length =
      min (min m.cumulative_regret.length rw.length) rw.length := by
  simp [predicted_regret_after, pdcfrp_regret_state_length]

theorem pdcfrp_predicted_regret_nonneg (d : ℕ → ℚ) (m : PdcfrPlusRegretMatcher)
    (rw : List ℚ) : ∀ x ∈ predicted_regret_after d m rw, 0 ≤ x := by
  unfold predicted_regret_after
  rw [zipWith_max_eq_clip]
  exact clipNonneg_nonneg _

theorem pdcfrp_wf_new {n : ℕ} (hn : 1 ≤ n) : WF n (new n) := by
  refine ⟨uniform_weights_length n, ?_, ?_, uniform_weights_nonneg n,
    uniform_weights_sum hn⟩ <;> simp [new]

theorem pdcfrp_wf_update {n : ℕ} (hn : 1 ≤ n) (d sd : ℕ → ℚ)
    {m : PdcfrPlusRegretMatcher} {rw : List ℚ} (hm : WF n m)
    (hrw : rw.length = n) : WF n (update_regret d sd m rw) := by
  obtain ⟨hp, hsp, hcr, hpn, hps⟩ := hm
  have hpred : (predicted_regret_after d m rw).length = n := by
    rw [pdcfrp_predicted_regret_length, hcr, hrw]
    simp
  have hplen : (update_regret d sd m rw).p.length = n := by
    rw [pdcfrp_update_p, hp]
    exact ite_norm_length hpred
  refine ⟨hplen, ?_, ?_, ?_, ?_⟩
  · rw [pdcfrp_update_sum_p]
    simp only [List.length_zipWith]
    rw [hsp, hplen, min_self]
  · rw [pdcfrp_update_cumulative_regret, pdcfrp_regret_state_length, hcr, hrw, min_self]
  · rw [pdcfrp_update_p, hp]
    exact ite_norm_nonneg _ (pdcfrp_predicted_regret_nonneg d m rw)
  · rw [pdcfrp_update_p, hp]
    exact ite_norm_sum hn _

theorem pdcfrp_wf_run {n : ℕ} (hn : 1 ≤ n) (d sd : ℕ → ℚ)
    {rs : List (List ℚ)} (hrs : ∀ r ∈ rs, r.length = n) :
    WF n (run d sd n rs) :=
  foldl_inv _ (WF n) n (fun _ _ hs hr => pdcfrp_wf_update hn d sd hs hr)
    rs (new n) (pdcfrp_wf_new hn) hrs

theorem pdcfrp_best_weight_sum {n : ℕ} (hn : 1 ≤ n) {m : PdcfrPlusRegretMatcher}
    (hm : WF n m) : m.best_weight.sum = 1 := by
  obtain ⟨hp, _, _, _, _⟩ := hm
  unfold best_weight init_weights
  rw [hp]
  exact ite_norm_sum hn m.sum_p

theorem pdcfrp_best_weight_length {n : ℕ} {m : PdcfrPlusRegretMatcher}
    (hm : WF n m) : m.best_weight.length = n := by
  obtain ⟨hp, hsp, _, _, _⟩ := hm
  unfold best_weight init_weights
  rw [hp]
  exact ite_norm_length hsp

end PdcfrPlusRegretMatcher

namespace CfrPlusRegretMatcher

/-- The clipped regret vector computed inside `update_regret`. -/
def capped_after (m : CfrPlusRegretMatcher) (rewards : List ℚ) : List ℚ :=
  clipNonneg
    ((add_assign m.expert_reward rewards).map
      (fun x => x - (m.cumulative_reward + dot m.p rewards)))

theorem cfr_regret_sum_after_eq (m : CfrPlusRegretMatcher) (rewards : List ℚ) :
    regret_sum_after m rewards = (capped_after m rewards).sum := rfl

/-- Reachability invariant: all vectors have the construction length
and the current strategy is a probability vector. -/
def WF (n : ℕ) (m : CfrPlusRegretMatcher) : Prop :=
  m.p.length = n ∧ m.sum_p.length = n ∧ m.expert_reward.length = n ∧
    (∀ x ∈ m.p, 0 ≤ x) ∧ m.p.sum = 1

/-- The degenerate branch of `update_regret`: strategy reset to
uniform, reward state and counter zeroed, `sum_p` untouched. -/
theorem cfr_update_regret_of_reset {m : CfrPlusRegretMatcher} {rw : List ℚ}
    (h : regret_sum_after m rw ≤ 0) :
    update_regret m rw =
      { p := uniform_weights m.p.length
        sum_p := m.sum_p
        expert_reward := List.replicate m.p.length 0
        cumulative_reward := 0
        num_updates := 0 } := by
  simp only [regret_sum_after] at h
  simp only [update_regret, init_weights]
  rw [if_pos h]

/-- The normal branch of `update_regret`. -/
theorem cfr_update_regret_of_pos {m : CfrPlusRegretMatcher} {rw : List ℚ}
    (h : ¬ regret_sum_after m rw ≤ 0) :
    update_regret m rw =
      { p := scaleDiv (capped_after m rw) (capped_after m rw).sum
        sum_p := add_assign m.sum_p (scaleDiv (capped_after m rw) (capped_after m rw).sum)
        expert_reward := add_assign m.expert_reward rw
        cumulative_reward := m.cumulative_reward + dot m.p rw
        num_updates := m.num_updates + 1 } := by
  simp only [regret_sum_after] at h
  simp only [update_regret, capped_after]
  rw [if_neg h]

theorem cfr_capped_after_length (m : CfrPlusRegretMatcher) (rw : List ℚ) :
    (capped_after m rw).length = min m.expert_reward.length rw.length := by
  simp [capped_after, clipNonneg, add_assign]

theorem cfr_wf_new {n : ℕ} (hn : 1 ≤ n) : WF n (new n) := by
  refine ⟨uniform_weights_length n, ?_, ?_, uniform_weights_nonneg n,
    uniform_weights_sum hn⟩ <;> simp [new]

theorem cfr_wf_update {n : ℕ} (hn : 1 ≤ n)
    {m : CfrPlusRegretMatcher} {rw : List ℚ} (hm : WF n m)
    (hrw : rw.length = n) : WF n (update_regret m rw) := by
  obtain ⟨hp, hsp, her, hpn, hps⟩ := hm
  have hcap : (capped_after m rw).length = n := by
    rw [cfr_capped_after_length, her, hrw, min_self]
  by_cases h : regret_sum_after m rw ≤ 0
  · rw [cfr_update_regret_of_reset h, hp]
    exact ⟨uniform_weights_length n, hsp, by simp, uniform_weights_nonneg n,
      uniform_weights_sum hn⟩
  · have hpos : 0 < (capped_after m rw).sum := by
      rw [cfr_regret_sum_after_eq] at h
      exact not_le.mp h
    rw [cfr_update_regret_of_pos h]
    have hplen : (scaleDiv (capped_after m rw) (capped_after m rw).sum).length = n := by
      rw [scaleDiv_length, hcap]
    refine ⟨hplen, ?_, ?_, ?_, ?_⟩
    · rw [add_assign_length, hsp, hplen, min_self]
    · rw [add_assign_length, her, hrw, min_self]
    · exact scaleDiv_nonneg (clipNonneg_nonneg _) (le_of_lt hpos)
    · rw [scaleDiv_sum]
      exact div_self (ne_of_gt hpos)

theorem cfr_wf_run {n : ℕ} (hn : 1 ≤ n)
    {rs : List (List ℚ)} (hrs : ∀ r ∈ rs, r.length = n) :
    WF n (run n rs) :=
  foldl_inv _ (WF n) n (fun _ _ hs hr => cfr_wf_update hn hs hr)
    rs (new n) (cfr_wf_new hn) hrs

/-- The update counter gains at most one per update. -/
theorem cfr_num_updates_le (rs : List (List ℚ)) :
    ∀ s : CfrPlusRegretMatcher,
      (rs.foldl update_regret s).num_updates ≤ s.num_updates + rs.length := by
  induction rs with
  | nil => intro s; simp
  | cons r t ih =>
      intro s
      simp only [List.foldl_cons, List.length_cons]
      refine le_trans (ih (update_regret s r)) ?_
      by_cases h : regret_sum_after s r ≤ 0
      · rw [cfr_update_regret_of_reset h]
        dsimp only
        omega
      · rw [cfr_update_regret_of_pos h]
        dsimp only
        omega

/-- If no degenerate reset occurred along a well-formed run (witnessed
by the counter having gained exactly the number of updates), the total
`sum_p` mass grows by exactly one per update. -/
theorem cfr_sum_p_mass_of_no_reset {n : ℕ} (hn : 1 ≤ n) :
    ∀ (rs : List (List ℚ)) (s : CfrPlusRegretMatcher), WF n s →
      (∀ r ∈ rs, r.length = n) →
      (rs.foldl update_regret s).num_updates = s.num_updates + rs.length →
      (rs.foldl update_regret s).sum_p.sum = s.sum_p.sum + rs.length := by
  intro rs
  induction rs with
  | nil => intro s _ _ _; simp
  | cons r t ih =>
      intro s hs hwf hnum
      have hr : r.length = n := hwf r (List.mem_cons_self r t)
      have hwt : ∀ q ∈ t, q.length = n := fun q hq => hwf q (List.mem_cons_of_mem r hq)
      simp only [List.foldl_cons, List.length_cons] at hnum ⊢
      by_cases h : regret_sum_after s r ≤ 0
      · exfalso
        have hle := cfr_num_updates_le t (update_regret s r)
        rw [cfr_update_regret_of_reset h] at hle hnum
        dsimp only at hle
        omega
      · have hs' : WF n (update_regret s r) := cfr_wf_update hn hs hr
        have hnum' : (t.foldl update_regret (update_regret s r)).num_updates =
            (update_regret s r).num_updates + t.length := by
          rw [cfr_update_regret_of_pos h]
          rw [cfr_update_regret_of_pos h] at hnum
          dsimp only at hnum ⊢
          omega
        have hmass := ih (update_regret s r) hs' hwt hnum'
        have hsum' : (update_regret s r).sum_p.sum = s.sum_p.sum + 1 := by
          obtain ⟨hp', hsp', _, _, hps'⟩ := hs'
          have hpnew : (update_regret s r).p.sum = 1 := hps'
          rw [cfr_update_regret_of_pos h] at hpnew ⊢
          simp only
          rw [add_assign_sum, hpnew]
          obtain ⟨_, hsp, her, _, _⟩ := hs
          rw [cfr_update_regret_of_pos h] at hp'
          simp only at hp'
          rw [hsp, hp']
        rw [hmass, hsum']
        push_cast
        ring

end CfrPlusRegretMatcher

/-! ## C3 machinery: the scalar formulation vs. accumulate-then-clip -/

/-- Distributing a broadcast subtraction over an element-wise sum:
`(E + w) - (C + d) = (E - C) + (w - d)` pointwise. -/
theorem map_sub_add_assign (E : List ℚ) (w : List ℚ) (C d : ℚ) :
    (add_assign E w).map (fun x => x - (C + d)) =
      List.zipWith (· + ·) (E.map (fun x => x - C)) (w.map (fun x => x - d)) := by
  induction E generalizing w with
  | nil => simp [add_assign]
  | cons e t ih =>
      cases w with
      | nil => simp [add_assign]
      | cons y u =>
          show (e + y - (C + d)) :: (add_assign t u).map (fun x => x - (C + d)) =
            (e - C + (y - d)) ::
              List.zipWith (· + ·) (t.map (fun x => x - C)) (u.map (fun x => x - d))
          rw [ih u]
          congr 1
          ring

namespace CfrPlusRegretMatcher

theorem cfr_regretVec_length (m : CfrPlusRegretMatcher) :
    m.regretVec.length = m.expert_reward.length := by
  simp [regretVec]

/-- The clipped regret of an update is the clip of the accumulated
instantaneous regrets. -/
theorem cfr_capped_after_eq_clip (m : CfrPlusRegretMatcher) (rw : List ℚ) :
    capped_after m rw =
      clipNonneg (List.zipWith (· + ·) m.regretVec
        (rw.map (fun x => x - dot m.p rw))) := by
  unfold capped_after regretVec
  rw [map_sub_add_assign]

/-- After a non-degenerate update the unclipped regret vector is the
previous one plus the instantaneous regrets. -/
theorem cfr_regretVec_update_of_pos {m : CfrPlusRegretMatcher} {rw : List ℚ}
    (h : ¬ regret_sum_after m rw ≤ 0) :
    (update_regret m rw).regretVec =
      List.zipWith (· + ·) m.regretVec (rw.map (fun x => x - dot m.p rw)) := by
  rw [cfr_update_regret_of_pos h]
  unfold regretVec
  dsimp only
  exact map_sub_add_assign m.expert_reward rw m.cumulative_reward (dot m.p rw)

/-- After a degenerate reset the unclipped regret vector is zero. -/
theorem cfr_regretVec_update_of_reset {m : CfrPlusRegretMatcher} {rw : List ℚ}
    (h : regret_sum_after m rw ≤ 0) :
    (update_regret m rw).regretVec = List.replicate m.p.length 0 := by
  rw [cfr_update_regret_of_reset h]
  unfold regretVec
  simp

end CfrPlusRegretMatcher

namespace AccumThenClipMatcher

/-- The clipped regret vector computed inside `update`. -/
def capped_after (a : AccumThenClipMatcher) (rewards : List ℚ) : List ℚ :=
  clipNonneg (List.zipWith (· + ·) a.R
    (rewards.map (fun x => x - dot a.p rewards)))

theorem update_of_reset {a : AccumThenClipMatcher} {rw : List ℚ}
    (h : (capped_after a rw).sum ≤ 0) :
    update a rw =
      { R := List.replicate a.p.length 0
        p := uniform_weights a.p.length } := by
  simp only [capped_after] at h
  simp only [update]
  rw [if_pos h]

theorem update_of_pos {a : AccumThenClipMatcher} {rw : List ℚ}
    (h : ¬ (capped_after a rw).sum ≤ 0) :
    update a rw =
      { R := List.zipWith (· + ·) a.R (rw.map (fun x => x - dot a.p rw))
        p := scaleDiv (capped_after a rw) (capped_after a rw).sum } := by
  simp only [capped_after] at h ⊢
  simp only [update]
  rw [if_neg h]

end AccumThenClipMatcher

/-- Simulation relation between the scalar CFR+ formulation and the
accumulate-then-clip machine: same strategy, and the spec machine's
regret vector is the scalar machine's `expert_reward - cumulative_reward`. -/
def CfrAccumRel (n : ℕ) (c : CfrPlusRegretMatcher) (a : AccumThenClipMatcher) : Prop :=
  a.R = c.regretVec ∧ a.p = c.p ∧ c.p.length = n ∧ c.expert_reward.length = n

theorem cfrAccumRel_new {n : ℕ} :
    CfrAccumRel n (CfrPlusRegretMatcher.new n) (AccumThenClipMatcher.new n) := by
  refine ⟨?_, rfl, uniform_weights_length n, by simp [CfrPlusRegretMatcher.new]⟩
  simp [AccumThenClipMatcher.new, CfrPlusRegretMatcher.new,
    CfrPlusRegretMatcher.regretVec]

theorem cfrAccumRel_step {n : ℕ} {c : CfrPlusRegretMatcher}
    {a : AccumThenClipMatcher} (hrel : CfrAccumRel n c a) {rw : List ℚ}
    (hrw : rw.length = n) :
    CfrAccumRel n (CfrPlusRegretMatcher.update_regret c rw)
      (AccumThenClipMatcher.update a rw) := by
  obtain ⟨hR, hp, hpl, hel⟩ := hrel
  have hcap : AccumThenClipMatcher.capped_after a rw =
      CfrPlusRegretMatcher.capped_after c rw := by
    rw [AccumThenClipMatcher.capped_after, hR, hp,
      CfrPlusRegretMatcher.cfr_capped_after_eq_clip]
  have hsum : (AccumThenClipMatcher.capped_after a rw).sum =
      CfrPlusRegretMatcher.regret_sum_after c rw := by
    rw [hcap, CfrPlusRegretMatcher.cfr_regret_sum_after_eq]
  by_cases h : CfrPlusRegretMatcher.regret_sum_after c rw ≤ 0
  · rw [AccumThenClipMatcher.update_of_reset (by rw [hsum]; exact h),
      CfrPlusRegretMatcher.cfr_update_regret_of_reset h]
    refine ⟨?_, ?_, ?_, ?_⟩
    · rw [hp]
      unfold CfrPlusRegretMatcher.regretVec
      simp
    · rw [hp]
    · dsimp only
      rw [uniform_weights_length, hpl]
    · dsimp only
      rw [List.length_replicate, hpl]
  · rw [AccumThenClipMatcher.update_of_pos (by rw [hsum]; exact h)]
    have hcfr := CfrPlusRegretMatcher.cfr_update_regret_of_pos h
    refine ⟨?_, ?_, ?_, ?_⟩
    · rw [CfrPlusRegretMatcher.cfr_regretVec_update_of_pos h]
      dsimp only
      rw [hR, hp]
    · rw [hcfr]
      dsimp only
      rw [hcap]
    · rw [hcfr]
      dsimp only
      rw [scaleDiv_length, CfrPlusRegretMatcher.cfr_capped_after_length, hel, hrw,
        min_self]
    · rw [hcfr]
      dsimp only
      rw [add_assign_length, hel, hrw, min_self]

theorem cfrAccumRel_run {n : ℕ} :
    ∀ (rs : List (List ℚ)) (c : CfrPlusRegretMatcher) (a : AccumThenClipMatcher),
      CfrAccumRel n c a → (∀ r ∈ rs, r.length = n) →
      CfrAccumRel n (rs.foldl CfrPlusRegretMatcher.update_regret c)
        (rs.foldl AccumThenClipMatcher.update a) := by
  intro rs
  induction rs with
  | nil => intro c a h _; simpa using h
  | cons r t ih =>
      intro c a h hwf
      simp only [List.foldl_cons]
      exact ih _ _ (cfrAccumRel_step h (hwf r (List.mem_cons_self r t)))
        (fun q hq => hwf q (List.mem_cons_of_mem r hq))

/-! ## Discount-factor analysis (`src/discount.rs`) -/

namespace DiscountParams

theorem discount_factor_def (t : ℕ) (e : ℝ) :
    discount_factor t e = (t : ℝ) ^ e / ((t : ℝ) ^ e + 1) := rfl

theorem discount_factor_mem_Ico {t : ℕ} (ht : 1 ≤ t) (e : ℝ) :
    0 ≤ discount_factor t e ∧ discount_factor t e < 1 := by
  have htR : (0 : ℝ) < (t : ℝ) := by exact_mod_cast ht
  have hx : (0 : ℝ) < (t : ℝ) ^ e := Real.rpow_pos_of_pos htR e
  rw [discount_factor_def]
  constructor
  · positivity
  · rw [div_lt_one (by linarith)]
    linarith

theorem discount_factor_zero_exp {t : ℕ} (_ht : 0 < t) :
    discount_factor t 0 = 1 / 2 := by
  rw [discount_factor_def, Real.rpow_zero]
  norm_num

theorem discount_factor_strictMono {e : ℝ} (he : 0 < e) {s t : ℕ}
    (hs : 0 < s) (hst : s < t) :
    discount_factor s e < discount_factor t e := by
  have hsR : (0 : ℝ) ≤ (s : ℝ) := Nat.cast_nonneg s
  have hstR : (s : ℝ) < (t : ℝ) := by exact_mod_cast hst
  have hab : (s : ℝ) ^ e < (t : ℝ) ^ e := Real.rpow_lt_rpow hsR hstR he
  have ha : (0 : ℝ) < (s : ℝ) ^ e :=
    Real.rpow_pos_of_pos (by exact_mod_cast hs) e
  rw [discount_factor_def, discount_factor_def,
    div_lt_div_iff₀ (by linarith) (by linarith)]
  nlinarith

end DiscountParams

/-! ## Claim theorems -/

/-- C7: `discount_factor(t, exp)` computes `t^exp / (t^exp + 1)`, its
result lies in `[0, 1)` for every positive `t`, it equals `0.5` at
`exp = 0` for every `t > 0`, and for every fixed `exp > 0` it is
strictly increasing in `t`. -/
theorem C7_discount_factor :
    (∀ (t : ℕ) (e : ℝ), DiscountParams.discount_factor t e =
      (t : ℝ) ^ e / ((t : ℝ) ^ e + 1)) ∧
    (∀ (t : ℕ) (e : ℝ), 1 ≤ t →
      0 ≤ DiscountParams.discount_factor t e ∧
        DiscountParams.discount_factor t e < 1) ∧
    (∀ t : ℕ, 0 < t → DiscountParams.discount_factor t 0 = 1 / 2) ∧
    (∀ e : ℝ, 0 < e → ∀ s t : ℕ, 0 < s → s < t →
      DiscountParams.discount_factor s e < DiscountParams.discount_factor t e) :=
  ⟨DiscountParams.discount_factor_def,
    fun _ e ht => DiscountParams.discount_factor_mem_Ico ht e,
    fun _ ht => DiscountParams.discount_factor_zero_exp ht,
    fun _ he _ _ hs hst => DiscountParams.discount_factor_strictMono he hs hst⟩

/-- C7 witness: the hypotheses of C7 hold at `t = 5`, `exp = 0` and at
`exp = 1`, `s = 2 < t = 3`, and the theorem instantiates there. -/
theorem C7_witness :
    DiscountParams.discount_factor 5 0 = 1 / 2 ∧
    DiscountParams.discount_factor 2 1 < DiscountParams.discount_factor 3 1 :=
  ⟨C7_discount_factor.2.2.1 5 (by decide),
    C7_discount_factor.2.2.2 1 one_pos 2 3 (by decide) (by decide)⟩

/-- C4: each DCFR-family `update_regret` increments `num_updates` by
exactly 1; the CFR+/original `update_regret` resets it to 0 exactly
when the clipped-regret sum after the update is `≤ 0` and increments it
by exactly 1 otherwise. -/
theorem C4_update_counter :
    (∀ (posD negD sd : ℕ → ℚ) (m : DiscountedRegretMatcher) (rw : List ℚ),
      (DiscountedRegretMatcher.update_regret posD negD sd m rw).num_updates =
        m.num_updates + 1) ∧
    (∀ (d sd : ℕ → ℚ) (m : DcfrPlusRegretMatcher) (rw : List ℚ),
      (DcfrPlusRegretMatcher.update_regret d sd m rw).num_updates =
        m.num_updates + 1) ∧
    (∀ (m : LinearCfrRegretMatcher) (rw : List ℚ),
      (LinearCfrRegretMatcher.update_regret m rw).num_updates =
        m.num_updates + 1) ∧
    (∀ (m : PcfrPlusRegretMatcher) (rw : List ℚ),
      (PcfrPlusRegretMatcher.update_regret m rw).num_updates =
        m.num_updates + 1) ∧
    (∀ (d sd : ℕ → ℚ) (m : PdcfrPlusRegretMatcher) (rw : List ℚ),
      (PdcfrPlusRegretMatcher.update_regret d sd m rw).num_updates =
        m.num_updates + 1) ∧
    (∀ (m : CfrPlusRegretMatcher) (rw : List ℚ),
      (CfrPlusRegretMatcher.update_regret m rw).num_updates =
        if CfrPlusRegretMatcher.regret_sum_after m rw ≤ 0 then 0
        else m.num_updates + 1) := by
  refine ⟨fun _ _ _ _ _ => rfl, fun _ _ _ _ => rfl, fun _ _ => rfl,
    fun _ _ => rfl, fun _ _ _ _ => rfl, fun m rw => ?_⟩
  by_cases h : CfrPlusRegretMatcher.regret_sum_after m rw ≤ 0
  · rw [CfrPlusRegretMatcher.cfr_update_regret_of_reset h, if_pos h]
  · rw [CfrPlusRegretMatcher.cfr_update_regret_of_pos h, if_neg h]

/-- C10: on the CFR+/original degenerate-reset branch (clipped-regret
sum `≤ 0` after the update), the cumulative-strategy accumulator
`sum_p` is left unchanged, while the strategy becomes uniform, the
expert-reward vector and the scalar cumulative reward are zeroed, and
the update counter returns to 0. -/
theorem C10_reset_preserves_sum_p :
    ∀ (m : CfrPlusRegretMatcher) (rw : List ℚ),
      CfrPlusRegretMatcher.regret_sum_after m rw ≤ 0 →
      (CfrPlusRegretMatcher.update_regret m rw).sum_p = m.sum_p ∧
      (CfrPlusRegretMatcher.update_regret m rw).p = uniform_weights m.p.length ∧
      (CfrPlusRegretMatcher.update_regret m rw).expert_reward =
        List.replicate m.p.length 0 ∧
      (CfrPlusRegretMatcher.update_regret m rw).cumulative_reward = 0 ∧
      (CfrPlusRegretMatcher.update_regret m rw).num_updates = 0 := by
  intro m rw h
  rw [CfrPlusRegretMatcher.cfr_update_regret_of_reset h]
  exact ⟨rfl, rfl, rfl, rfl, rfl⟩

/-- C10 witness: a state with accumulated strategy mass `[7]` hits the
degenerate branch on reward `[5]` and keeps `sum_p = [7]` while the
counter returns to 0. -/
theorem C10_witness :
    CfrPlusRegretMatcher.regret_sum_after ⟨[1], [7], [0], 0, 3⟩ [5] ≤ 0 ∧
    (CfrPlusRegretMatcher.update_regret ⟨[1], [7], [0], 0, 3⟩ [5]).sum_p = [7] ∧
    (CfrPlusRegretMatcher.update_regret ⟨[1], [7], [0], 0, 3⟩ [5]).num_updates = 0 := by
  have h : CfrPlusRegretMatcher.regret_sum_after ⟨[1], [7], [0], 0, 3⟩ [5] ≤ 0 := by
    norm_num [CfrPlusRegretMatcher.regret_sum_after, add_assign, clipNonneg, dot]
  obtain ⟨h1, _, _, _, h5⟩ := C10_reset_preserves_sum_p ⟨[1], [7], [0], 0, 3⟩ [5] h
  exact ⟨h, h1, h5⟩

/-- C5: for every DCFR-family variant the degenerate case (clipped
total `≤ 0`) replaces only that iteration's strategy by uniform: the
cumulative regret is still the rule's value, and the cumulative
strategy accumulator and update counter follow the same formulas as in
the non-degenerate branch; only the CFR+/original formulation resets
its cumulative regret state and counter to zero there. -/
theorem C5_degenerate_frame :
    (∀ (posD negD sd : ℕ → ℚ) (m : DiscountedRegretMatcher) (rw : List ℚ),
      (DiscountedRegretMatcher.update_regret posD negD sd m rw).cumulative_regret =
        DiscountedRegretMatcher.regret_state_after posD negD m rw ∧
      (DiscountedRegretMatcher.update_regret posD negD sd m rw).num_updates =
        m.num_updates + 1 ∧
      (DiscountedRegretMatcher.update_regret posD negD sd m rw).sum_p =
        List.zipWith (fun s x => s * sd (m.num_updates + 1) + x) m.sum_p
          ((DiscountedRegretMatcher.update_regret posD negD sd m rw).p) ∧
      (DiscountedRegretMatcher.regret_sum_after posD negD m rw ≤ 0 →
        (DiscountedRegretMatcher.update_regret posD negD sd m rw).p =
          uniform_weights m.p.length)) ∧
    (∀ (d sd : ℕ → ℚ) (m : DcfrPlusRegretMatcher) (rw : List ℚ),
      (DcfrPlusRegretMatcher.update_regret d sd m rw).cumulative_regret =
        DcfrPlusRegretMatcher.regret_state_after d m rw ∧
      (DcfrPlusRegretMatcher.update_regret d sd m rw).num_updates =
        m.num_updates + 1 ∧
      (DcfrPlusRegretMatcher.update_regret d sd m rw).sum_p =
        List.zipWith
          (fun s x =>
            s * (if 1 < m.num_updates + 1 then sd (m.num_updates + 1) else 0) + x)
          m.sum_p ((DcfrPlusRegretMatcher.update_regret d sd m rw).p) ∧
      (DcfrPlusRegretMatcher.regret_sum_after d m rw ≤ 0 →
        (DcfrPlusRegretMatcher.update_regret d sd m rw).p =
          uniform_weights m.p.length)) ∧
    (∀ (m : LinearCfrRegretMatcher) (rw : List ℚ),
      (LinearCfrRegretMatcher.update_regret m rw).cumulative_regret =
        LinearCfrRegretMatcher.regret_state_after m rw ∧
      (LinearCfrRegretMatcher.update_regret m rw).num_updates =
        m.num_updates + 1 ∧
      (LinearCfrRegretMatcher.update_regret m rw).sum_p =
        List.zipWith (fun s x => s + x * ((m.num_updates + 1 : ℕ) : ℚ)) m.sum_p
          ((LinearCfrRegretMatcher.update_regret m rw).p) ∧
      (LinearCfrRegretMatcher.regret_sum_after m rw ≤ 0 →
        (LinearCfrRegretMatcher.update_regret m rw).p =
          uniform_weights m.p.length)) ∧
    (∀ (m : PcfrPlusRegretMatcher) (rw : List ℚ),
      (PcfrPlusRegretMatcher.update_regret m rw).cumulative_regret =
        PcfrPlusRegretMatcher.regret_state_after m rw ∧
      (PcfrPlusRegretMatcher.update_regret m rw).num_updates =
        m.num_updates + 1 ∧
      (PcfrPlusRegretMatcher.update_regret m rw).sum_p =
        List.zipWith
          (fun s x => s + x * (((m.num_updates + 1) * (m.num_updates + 1) : ℕ) : ℚ))
          m.sum_p ((PcfrPlusRegretMatcher.update_regret m rw).p) ∧
      (PcfrPlusRegretMatcher.regret_sum_after m rw ≤ 0 →
        (PcfrPlusRegretMatcher.update_regret m rw).p =
          uniform_weights m.p.length)) ∧
    (∀ (d sd : ℕ → ℚ) (m : PdcfrPlusRegretMatcher) (rw : List ℚ),
      (PdcfrPlusRegretMatcher.update_regret d sd m rw).cumulative_regret =
        PdcfrPlusRegretMatcher.regret_state_after d m rw ∧
      (PdcfrPlusRegretMatcher.update_regret d sd m rw).num_updates =
        m.num_updates + 1 ∧
      (PdcfrPlusRegretMatcher.update_regret d sd m rw).sum_p =
        List.zipWith
          (fun s x =>
            s * (if 1 < m.num_updates + 1 then sd (m.num_updates + 1) else 0) + x)
          m.sum_p ((PdcfrPlusRegretMatcher.update_regret d sd m rw).p) ∧
      (PdcfrPlusRegretMatcher.regret_sum_after d m rw ≤ 0 →
        (PdcfrPlusRegretMatcher.update_regret d sd m rw).p =
          uniform_weights m.p.length)) ∧
    (∀ (m : CfrPlusRegretMatcher) (rw : List ℚ),
      CfrPlusRegretMatcher.regret_sum_after m rw ≤ 0 →
        (CfrPlusRegretMatcher.update_regret m rw).expert_reward =
          List.replicate m.p.length 0 ∧
        (CfrPlusRegretMatcher.update_regret m rw).cumulative_reward = 0 ∧
        (CfrPlusRegretMatcher.update_regret m rw).num_updates = 0 ∧
        (CfrPlusRegretMatcher.update_regret m rw).p =
          uniform_weights m.p.length) := by
  refine ⟨fun posD negD sd m rw => ⟨rfl, rfl, rfl, fun h => ?_⟩,
    fun d sd m rw => ⟨rfl, rfl, rfl, fun h => ?_⟩,
    fun m rw => ⟨rfl, rfl, rfl, fun h => ?_⟩,
    fun m rw => ⟨rfl, rfl, rfl, fun h => ?_⟩,
    fun d sd m rw => ⟨rfl, rfl, rfl, fun h => ?_⟩,
    fun m rw h => ?_⟩
  · simp only [DiscountedRegretMatcher.regret_sum_after] at h
    rw [DiscountedRegretMatcher.dcfr_update_p, if_pos h]
  · simp only [DcfrPlusRegretMatcher.regret_sum_after] at h
    rw [DcfrPlusRegretMatcher.dcfrp_update_p, if_pos h]
  · simp only [LinearCfrRegretMatcher.regret_sum_after] at h
    rw [LinearCfrRegretMatcher.lcfr_update_p, if_pos h]
  · simp only [PcfrPlusRegretMatcher.regret_sum_after] at h
    rw [PcfrPlusRegretMatcher.pcfrp_update_p, if_pos h]
  · simp only [PdcfrPlusRegretMatcher.regret_sum_after] at h
    rw [PdcfrPlusRegretMatcher.pdcfrp_update_p, if_pos h]
  · rw [CfrPlusRegretMatcher.cfr_update_regret_of_reset h]
    exact ⟨rfl, rfl, rfl, rfl⟩

/-- C6: for every variant, after any well-formed sequence of
`update_regret` calls, `current_strategy()` is non-negative and sums
exactly to 1 (hence within `1e-5`). -/
theorem C6_strategy_simplex :
    (∀ (posD negD sd : ℕ → ℚ) (n : ℕ) (rs : List (List ℚ)), 1 ≤ n →
      (∀ r ∈ rs, r.length = n) →
      (∀ x ∈ (DiscountedRegretMatcher.run posD negD sd n rs).current_strategy, 0 ≤ x) ∧
      (DiscountedRegretMatcher.run posD negD sd n rs).current_strategy.sum = 1) ∧
    (∀ (d sd : ℕ → ℚ) (n : ℕ) (rs : List (List ℚ)), 1 ≤ n →
      (∀ r ∈ rs, r.length = n) →
      (∀ x ∈ (DcfrPlusRegretMatcher.run d sd n rs).current_strategy, 0 ≤ x) ∧
      (DcfrPlusRegretMatcher.run d sd n rs).current_strategy.sum = 1) ∧
    (∀ (n : ℕ) (rs : List (List ℚ)), 1 ≤ n → (∀ r ∈ rs, r.length = n) →
      (∀ x ∈ (LinearCfrRegretMatcher.run n rs).current_strategy, 0 ≤ x) ∧
      (LinearCfrRegretMatcher.run n rs).current_strategy.sum = 1) ∧
    (∀ (n : ℕ) (rs : List (List ℚ)), 1 ≤ n → (∀ r ∈ rs, r.length = n) →
      (∀ x ∈ (PcfrPlusRegretMatcher.run n rs).current_strategy, 0 ≤ x) ∧
      (PcfrPlusRegretMatcher.run n rs).current_strategy.sum = 1) ∧
    (∀ (d sd : ℕ → ℚ) (n : ℕ) (rs : List (List ℚ)), 1 ≤ n →
      (∀ r ∈ rs, r.length = n) →
      (∀ x ∈ (PdcfrPlusRegretMatcher.run d sd n rs).current_strategy, 0 ≤ x) ∧
      (PdcfrPlusRegretMatcher.run d sd n rs).current_strategy.sum = 1) ∧
    (∀ (n : ℕ) (rs : List (List ℚ)), 1 ≤ n → (∀ r ∈ rs, r.length = n) →
      (∀ x ∈ (CfrPlusRegretMatcher.run n rs).current_strategy, 0 ≤ x) ∧
      (CfrPlusRegretMatcher.run n rs).current_strategy.sum = 1) := by
  refine ⟨fun posD negD sd n rs hn hwf => ?_, fun d sd n rs hn hwf => ?_,
    fun n rs hn hwf => ?_, fun n rs hn hwf => ?_, fun d sd n rs hn hwf => ?_,
    fun n rs hn hwf => ?_⟩
  · obtain ⟨_, _, _, h4, h5⟩ := DiscountedRegretMatcher.dcfr_wf_run hn posD negD sd hwf
    exact ⟨h4, h5⟩
  · obtain ⟨_, _, _, h4, h5⟩ := DcfrPlusRegretMatcher.dcfrp_wf_run hn d sd hwf
    exact ⟨h4, h5⟩
  · obtain ⟨_, _, _, h4, h5⟩ := LinearCfrRegretMatcher.lcfr_wf_run hn hwf
    exact ⟨h4, h5⟩
  · obtain ⟨_, _, _, h4, h5⟩ := PcfrPlusRegretMatcher.pcfrp_wf_run hn hwf
    exact ⟨h4, h5⟩
  · obtain ⟨_, _, _, h4, h5⟩ := PdcfrPlusRegretMatcher.pdcfrp_wf_run hn d sd hwf
    exact ⟨h4, h5⟩
  · obtain ⟨_, _, _, h4, h5⟩ := CfrPlusRegretMatcher.cfr_wf_run hn hwf
    exact ⟨h4, h5⟩

/-- C8: on a successfully constructed instance (`n ≥ 1`), the strategy
vector passed to the sampler rebuild — the `p` of every reachable
state, including the freshly constructed one — always satisfies the
sampler's construction precondition (non-empty, non-negative, strictly
positive sum), so the `InvalidWeights` branch is unreachable after
construction. -/
theorem C8_no_invalid_weights :
    (∀ (posD negD sd : ℕ → ℚ) (n : ℕ) (rs : List (List ℚ)), 1 ≤ n →
      (∀ r ∈ rs, r.length = n) →
      validWeights (DiscountedRegretMatcher.run posD negD sd n rs).p) ∧
    (∀ (d sd : ℕ → ℚ) (n : ℕ) (rs : List (List ℚ)), 1 ≤ n →
      (∀ r ∈ rs, r.length = n) →
      validWeights (DcfrPlusRegretMatcher.run d sd n rs).p) ∧
    (∀ (n : ℕ) (rs : List (List ℚ)), 1 ≤ n → (∀ r ∈ rs, r.length = n) →
      validWeights (LinearCfrRegretMatcher.run n rs).p) ∧
    (∀ (n : ℕ) (rs : List (List ℚ)), 1 ≤ n → (∀ r ∈ rs, r.length = n) →
      validWeights (PcfrPlusRegretMatcher.run n rs).p) ∧
    (∀ (d sd : ℕ → ℚ) (n : ℕ) (rs : List (List ℚ)), 1 ≤ n →
      (∀ r ∈ rs, r.length = n) →
      validWeights (PdcfrPlusRegretMatcher.run d sd n rs).p) ∧
    (∀ (n : ℕ) (rs : List (List ℚ)), 1 ≤ n → (∀ r ∈ rs, r.length = n) →
      validWeights (CfrPlusRegretMatcher.run n rs).p) := by
  have key : ∀ (l : List ℚ) (n : ℕ), 1 ≤ n → l.length = n →
      (∀ x ∈ l, 0 ≤ x) → l.sum = 1 → validWeights l := by
    intro l n hn hl hnn hs
    refine ⟨?_, hnn, ?_⟩
    · intro hnil
      rw [hnil] at hl
      simp at hl
      omega
    · rw [hs]
      exact one_pos
  refine ⟨fun posD negD sd n rs hn hwf => ?_, fun d sd n rs hn hwf => ?_,
    fun n rs hn hwf => ?_, fun n rs hn hwf => ?_, fun d sd n rs hn hwf => ?_,
    fun n rs hn hwf => ?_⟩
  · obtain ⟨h1, _, _, h4, h5⟩ := DiscountedRegretMatcher.dcfr_wf_run hn posD negD sd hwf
    exact key _ n hn h1 h4 h5
  · obtain ⟨h1, _, _, h4, h5⟩ := DcfrPlusRegretMatcher.dcfrp_wf_run hn d sd hwf
    exact key _ n hn h1 h4 h5
  · obtain ⟨h1, _, _, h4, h5⟩ := LinearCfrRegretMatcher.lcfr_wf_run hn hwf
    exact key _ n hn h1 h4 h5
  · obtain ⟨h1, _, _, h4, h5⟩ := PcfrPlusRegretMatcher.pcfrp_wf_run hn hwf
    exact key _ n hn h1 h4 h5
  · obtain ⟨h1, _, _, h4, h5⟩ := PdcfrPlusRegretMatcher.pdcfrp_wf_run hn d sd hwf
    exact key _ n hn h1 h4 h5
  · obtain ⟨h1, _, _, h4, h5⟩ := CfrPlusRegretMatcher.cfr_wf_run hn hwf
    exact key _ n hn h1 h4 h5

/-- C9: `run_one` only adds the payoff row of the opposing (clamped)
action into each side's pending buffer and leaves both matchers
untouched; `update_regret` applies each side's matcher update exactly
once to its own pending buffer and then zeros both buffers; the payoff
table is zero-sum (every row sums to 0). -/
theorem C9_harness :
    (∀ (M : Type) (r : RPSRunnerGeneric M) (i1 i2 : ℕ),
      (r.run_one i1 i2).matcher_one = r.matcher_one ∧
      (r.run_one i1 i2).matcher_two = r.matcher_two ∧
      (r.run_one i1 i2).pending_reward_one =
        add_assign r.pending_reward_one
          (RPSAction.to_reward (RPSAction.fromIndex i2)) ∧
      (r.run_one i1 i2).pending_reward_two =
        add_assign r.pending_reward_two
          (RPSAction.to_reward (RPSAction.fromIndex i1))) ∧
    (∀ (M : Type) (U : M → List ℚ → M) (r : RPSRunnerGeneric M),
      (RPSRunnerGeneric.update_regret U r).matcher_one =
        U r.matcher_one r.pending_reward_one ∧
      (RPSRunnerGeneric.update_regret U r).matcher_two =
        U r.matcher_two r.pending_reward_two ∧
      (RPSRunnerGeneric.update_regret U r).pending_reward_one =
        List.replicate r.pending_reward_one.length 0 ∧
      (RPSRunnerGeneric.update_regret U r).pending_reward_two =
        List.replicate r.pending_reward_two.length 0) ∧
    (∀ a : ℕ, (RPSAction.to_reward a).sum = 0) := by
  refine ⟨fun M r i1 i2 => ⟨rfl, rfl, rfl, rfl⟩,
    fun M U r => ⟨rfl, rfl, ?_, ?_⟩, fun a => ?_⟩
  · simp [RPSRunnerGeneric.update_regret, List.map_const']
  · simp [RPSRunnerGeneric.update_regret, List.map_const']
  · rcases a with _ | _ | k <;> simp [RPSAction.to_reward]

/-- C5 witness: with one expert, any update is degenerate (the
instantaneous regret is identically zero); each variant instantiates
its clause of C5 at `new 1` with reward `[3]`. -/
theorem C5_witness :
    ((DiscountedRegretMatcher.update_regret linearDiscount linearDiscount
        linearStrategyDiscount (DiscountedRegretMatcher.new 1) [3]).p =
      uniform_weights (DiscountedRegretMatcher.new 1).p.length) ∧
    ((DcfrPlusRegretMatcher.update_regret linearDiscount prevOverCurr
        (DcfrPlusRegretMatcher.new 1) [3]).p =
      uniform_weights (DcfrPlusRegretMatcher.new 1).p.length) ∧
    ((LinearCfrRegretMatcher.update_regret (LinearCfrRegretMatcher.new 1) [3]).p =
      uniform_weights (LinearCfrRegretMatcher.new 1).p.length) ∧
    ((PcfrPlusRegretMatcher.update_regret (PcfrPlusRegretMatcher.new 1) [3]).p =
      uniform_weights (PcfrPlusRegretMatcher.new 1).p.length) ∧
    ((PdcfrPlusRegretMatcher.update_regret linearDiscount prevOverCurr
        (PdcfrPlusRegretMatcher.new 1) [3]).p =
      uniform_weights (PdcfrPlusRegretMatcher.new 1).p.length) ∧
    ((CfrPlusRegretMatcher.update_regret (CfrPlusRegretMatcher.new 1) [3]).num_updates = 0) := by
  have h1 : DiscountedRegretMatcher.regret_sum_after linearDiscount linearDiscount
      (DiscountedRegretMatcher.new 1) [3] ≤ 0 := by
    norm_num [DiscountedRegretMatcher.regret_sum_after,
      DiscountedRegretMatcher.regret_state_after, DiscountedRegretMatcher.new,
      DiscountedRegretMatcher.init_weights, uniform_weights, dot, clipNonneg,
      List.replicate, linearDiscount]
  have h2 : DcfrPlusRegretMatcher.regret_sum_after linearDiscount
      (DcfrPlusRegretMatcher.new 1) [3] ≤ 0 := by
    norm_num [DcfrPlusRegretMatcher.regret_sum_after,
      DcfrPlusRegretMatcher.regret_state_after, DcfrPlusRegretMatcher.new,
      DcfrPlusRegretMatcher.init_weights, uniform_weights, dot, clipNonneg,
      List.replicate, linearDiscount]
  have h3 : LinearCfrRegretMatcher.regret_sum_after
      (LinearCfrRegretMatcher.new 1) [3] ≤ 0 := by
    norm_num [LinearCfrRegretMatcher.regret_sum_after,
      LinearCfrRegretMatcher.regret_state_after, LinearCfrRegretMatcher.new,
      LinearCfrRegretMatcher.init_weights, uniform_weights, dot, clipNonneg,
      List.replicate]
  have h4 : PcfrPlusRegretMatcher.regret_sum_after
      (PcfrPlusRegretMatcher.new 1) [3] ≤ 0 := by
    norm_num [PcfrPlusRegretMatcher.regret_sum_after,
      PcfrPlusRegretMatcher.predicted_regret_after,
      PcfrPlusRegretMatcher.regret_state_after, PcfrPlusRegretMatcher.new,
      PcfrPlusRegretMatcher.init_weights, uniform_weights, dot, clipNonneg,
      List.replicate]
  have h5 : PdcfrPlusRegretMatcher.regret_sum_after linearDiscount
      (PdcfrPlusRegretMatcher.new 1) [3] ≤ 0 := by
    norm_num [PdcfrPlusRegretMatcher.regret_sum_after,
      PdcfrPlusRegretMatcher.predicted_regret_after,
      PdcfrPlusRegretMatcher.regret_state_after, PdcfrPlusRegretMatcher.new,
      PdcfrPlusRegretMatcher.init_weights, uniform_weights, dot, clipNonneg,
      List.replicate, linearDiscount]
  have h6 : CfrPlusRegretMatcher.regret_sum_after
      (CfrPlusRegretMatcher.new 1) [3] ≤ 0 := by
    norm_num [CfrPlusRegretMatcher.regret_sum_after, CfrPlusRegretMatcher.new,
      CfrPlusRegretMatcher.init_weights, uniform_weights, dot, clipNonneg,
      add_assign, List.replicate]
  exact ⟨(C5_degenerate_frame.1 linearDiscount linearDiscount
      linearStrategyDiscount (DiscountedRegretMatcher.new 1) [3]).2.2.2 h1,
    (C5_degenerate_frame.2.1 linearDiscount prevOverCurr
      (DcfrPlusRegretMatcher.new 1) [3]).2.2.2 h2,
    (C5_degenerate_frame.2.2.1 (LinearCfrRegretMatcher.new 1) [3]).2.2.2 h3,
    (C5_degenerate_frame.2.2.2.1 (PcfrPlusRegretMatcher.new 1) [3]).2.2.2 h4,
    (C5_degenerate_frame.2.2.2.2.1 linearDiscount prevOverCurr
      (PdcfrPlusRegretMatcher.new 1) [3]).2.2.2 h5,
    (C5_degenerate_frame.2.2.2.2.2 (CfrPlusRegretMatcher.new 1) [3] h6).2.2.1⟩

/-- C6 witness: the simplex invariant instantiated for all six variants
at `n = 3` with the single reward vector `[1, 0, -1]`. -/
theorem C6_witness :
    ((∀ x ∈ (DiscountedRegretMatcher.run linearDiscount linearDiscount
        linearStrategyDiscount 3 [[1, 0, -1]]).current_strategy, 0 ≤ x) ∧
      (DiscountedRegretMatcher.run linearDiscount linearDiscount
        linearStrategyDiscount 3 [[1, 0, -1]]).current_strategy.sum = 1) ∧
    ((∀ x ∈ (DcfrPlusRegretMatcher.run linearDiscount prevOverCurr 3
        [[1, 0, -1]]).current_strategy, 0 ≤ x) ∧
      (DcfrPlusRegretMatcher.run linearDiscount prevOverCurr 3
        [[1, 0, -1]]).current_strategy.sum = 1) ∧
    ((∀ x ∈ (LinearCfrRegretMatcher.run 3 [[1, 0, -1]]).current_strategy, 0 ≤ x) ∧
      (LinearCfrRegretMatcher.run 3 [[1, 0, -1]]).current_strategy.sum = 1) ∧
    ((∀ x ∈ (PcfrPlusRegretMatcher.run 3 [[1, 0, -1]]).current_strategy, 0 ≤ x) ∧
      (PcfrPlusRegretMatcher.run 3 [[1, 0, -1]]).current_strategy.sum = 1) ∧
    ((∀ x ∈ (PdcfrPlusRegretMatcher.run linearDiscount prevOverCurr 3
        [[1, 0, -1]]).current_strategy, 0 ≤ x) ∧
      (PdcfrPlusRegretMatcher.run linearDiscount prevOverCurr 3
        [[1, 0, -1]]).current_strategy.sum = 1) ∧
    ((∀ x ∈ (CfrPlusRegretMatcher.run 3 [[1, 0, -1]]).current_strategy, 0 ≤ x) ∧
      (CfrPlusRegretMatcher.run 3 [[1, 0, -1]]).current_strategy.sum = 1) := by
  have hn : (1 : ℕ) ≤ 3 := by decide
  have hwf : ∀ r ∈ [[(1 : ℚ), 0, -1]], r.length = 3 := by simp
  exact ⟨C6_strategy_simplex.1 linearDiscount linearDiscount
      linearStrategyDiscount 3 _ hn hwf,
    C6_strategy_simplex.2.1 linearDiscount prevOverCurr 3 _ hn hwf,
    C6_strategy_simplex.2.2.1 3 _ hn hwf,
    C6_strategy_simplex.2.2.2.1 3 _ hn hwf,
    C6_strategy_simplex.2.2.2.2.1 linearDiscount prevOverCurr 3 _ hn hwf,
    C6_strategy_simplex.2.2.2.2.2 3 _ hn hwf⟩

/-- C8 witness: the sampler precondition instantiated for all six
variants at `n = 3` with the single reward vector `[1, 0, -1]`. -/
theorem C8_witness :
    validWeights (DiscountedRegretMatcher.run linearDiscount linearDiscount
      linearStrategyDiscount 3 [[1, 0, -1]]).p ∧
    validWeights (DcfrPlusRegretMatcher.run linearDiscount prevOverCurr 3
      [[1, 0, -1]]).p ∧
    validWeights (LinearCfrRegretMatcher.run 3 [[1, 0, -1]]).p ∧
    validWeights (PcfrPlusRegretMatcher.run 3 [[1, 0, -1]]).p ∧
    validWeights (PdcfrPlusRegretMatcher.run linearDiscount prevOverCurr 3
      [[1, 0, -1]]).p ∧
    validWeights (CfrPlusRegretMatcher.run 3 [[1, 0, -1]]).p := by
  have hn : (1 : ℕ) ≤ 3 := by decide
  have hwf : ∀ r ∈ [[(1 : ℚ), 0, -1]], r.length = 3 := by simp
  exact ⟨C8_no_invalid_weights.1 linearDiscount linearDiscount
      linearStrategyDiscount 3 _ hn hwf,
    C8_no_invalid_weights.2.1 linearDiscount prevOverCurr 3 _ hn hwf,
    C8_no_invalid_weights.2.2.1 3 _ hn hwf,
    C8_no_invalid_weights.2.2.2.1 3 _ hn hwf,
    C8_no_invalid_weights.2.2.2.2.1 linearDiscount prevOverCurr 3 _ hn hwf,
    C8_no_invalid_weights.2.2.2.2.2 3 _ hn hwf⟩

/-- C1 (counterexample): the CFR+/original `best_weight` divides
`sum_p` by `num_updates` with no fallback, so on the reachable
zero-update state it is not a probability vector: in the source
`0.0 / 0.0` is `NaN`; in the rational model it is `0`.  In both
semantics the result is `[0, 0, 0]`-like rather than uniform and its
sum is not within `1e-5` of 1, refuting the claim for the CFR+
variant. -/
theorem C1_counterexample :
    CfrPlusRegretMatcher.best_weight (CfrPlusRegretMatcher.new 3) = [0, 0, 0] ∧
    ¬ (|(CfrPlusRegretMatcher.best_weight (CfrPlusRegretMatcher.new 3)).sum - 1| ≤
        1 / 100000) ∧
    CfrPlusRegretMatcher.best_weight (CfrPlusRegretMatcher.new 3) ≠
      uniform_weights 3 := by
  have hb : CfrPlusRegretMatcher.best_weight (CfrPlusRegretMatcher.new 3) =
      [0, 0, 0] := by
    norm_num [CfrPlusRegretMatcher.best_weight, CfrPlusRegretMatcher.new,
      scaleDiv, List.replicate]
  refine ⟨hb, ?_, ?_⟩
  · rw [hb]
    norm_num
  · rw [hb]
    norm_num [uniform_weights, List.replicate]

/-- C1 (amended): for the five DCFR-family variants `best_weight` is
the cumulative strategy normalized by its total with a uniform
fallback, returning `N` values summing to 1 in every reachable state;
the CFR+/original formulation instead divides `sum_p` by
`num_updates`, which is a probability vector only away from the
zero-counter states: on runs with at least one update and no
degenerate reset (witnessed by the counter equalling the number of
updates) it returns `N` values summing to 1. -/
theorem C1_best_weight :
    (∀ (posD negD sd : ℕ → ℚ) (n : ℕ) (rs : List (List ℚ)), 1 ≤ n →
      (∀ r ∈ rs, r.length = n) →
      (DiscountedRegretMatcher.run posD negD sd n rs).best_weight.length = n ∧
      (DiscountedRegretMatcher.run posD negD sd n rs).best_weight.sum = 1) ∧
    (∀ (d sd : ℕ → ℚ) (n : ℕ) (rs : List (List ℚ)), 1 ≤ n →
      (∀ r ∈ rs, r.length = n) →
      (DcfrPlusRegretMatcher.run d sd n rs).best_weight.length = n ∧
      (DcfrPlusRegretMatcher.run d sd n rs).best_weight.sum = 1) ∧
    (∀ (n : ℕ) (rs : List (List ℚ)), 1 ≤ n → (∀ r ∈ rs, r.length = n) →
      (LinearCfrRegretMatcher.run n rs).best_weight.length = n ∧
      (LinearCfrRegretMatcher.run n rs).best_weight.sum = 1) ∧
    (∀ (n : ℕ) (rs : List (List ℚ)), 1 ≤ n → (∀ r ∈ rs, r.length = n) →
      (PcfrPlusRegretMatcher.run n rs).best_weight.length = n ∧
      (PcfrPlusRegretMatcher.run n rs).best_weight.sum = 1) ∧
    (∀ (d sd : ℕ → ℚ) (n : ℕ) (rs : List (List ℚ)), 1 ≤ n →
      (∀ r ∈ rs, r.length = n) →
      (PdcfrPlusRegretMatcher.run d sd n rs).best_weight.length = n ∧
      (PdcfrPlusRegretMatcher.run d sd n rs).best_weight.sum = 1) ∧
    (∀ (n : ℕ) (rs : List (List ℚ)), 1 ≤ n → (∀ r ∈ rs, r.length = n) →
      1 ≤ rs.length →
      (CfrPlusRegretMatcher.run n rs).num_updates = rs.length →
      (CfrPlusRegretMatcher.run n rs).best_weight.length = n ∧
      (CfrPlusRegretMatcher.run n rs).best_weight.sum = 1) := by
  refine ⟨fun posD negD sd n rs hn hwf =>
      ⟨DiscountedRegretMatcher.dcfr_best_weight_length
        (DiscountedRegretMatcher.dcfr_wf_run hn posD negD sd hwf),
      DiscountedRegretMatcher.dcfr_best_weight_sum hn
        (DiscountedRegretMatcher.dcfr_wf_run hn posD negD sd hwf)⟩,
    fun d sd n rs hn hwf =>
      ⟨DcfrPlusRegretMatcher.dcfrp_best_weight_length
        (DcfrPlusRegretMatcher.dcfrp_wf_run hn d sd hwf),
      DcfrPlusRegretMatcher.dcfrp_best_weight_sum hn
        (DcfrPlusRegretMatcher.dcfrp_wf_run hn d sd hwf)⟩,
    fun n rs hn hwf =>
      ⟨LinearCfrRegretMatcher.lcfr_best_weight_length
        (LinearCfrRegretMatcher.lcfr_wf_run hn hwf),
      LinearCfrRegretMatcher.lcfr_best_weight_sum hn
        (LinearCfrRegretMatcher.lcfr_wf_run hn hwf)⟩,
    fun n rs hn hwf =>
      ⟨PcfrPlusRegretMatcher.pcfrp_best_weight_length
        (PcfrPlusRegretMatcher.pcfrp_wf_run hn hwf),
      PcfrPlusRegretMatcher.pcfrp_best_weight_sum hn
        (PcfrPlusRegretMatcher.pcfrp_wf_run hn hwf)⟩,
    fun d sd n rs hn hwf =>
      ⟨PdcfrPlusRegretMatcher.pdcfrp_best_weight_length
        (PdcfrPlusRegretMatcher.pdcfrp_wf_run hn d sd hwf),
      PdcfrPlusRegretMatcher.pdcfrp_best_weight_sum hn
        (PdcfrPlusRegretMatcher.pdcfrp_wf_run hn d sd hwf)⟩,
    fun n rs hn hwf hlen hnum => ?_⟩
  obtain ⟨hp, hsp, _, _, _⟩ := CfrPlusRegretMatcher.cfr_wf_run hn hwf
  have hnum0 : (rs.foldl CfrPlusRegretMatcher.update_regret
      (CfrPlusRegretMatcher.new n)).num_updates =
      (CfrPlusRegretMatcher.new n).num_updates + rs.length := by
    show (CfrPlusRegretMatcher.run n rs).num_updates = 0 + rs.length
    rw [hnum]
    omega
  have hmass := CfrPlusRegretMatcher.cfr_sum_p_mass_of_no_reset hn rs
    (CfrPlusRegretMatcher.new n) (CfrPlusRegretMatcher.cfr_wf_new hn) hwf hnum0
  have hnew : (CfrPlusRegretMatcher.new n).sum_p.sum = 0 := by
    simp [CfrPlusRegretMatcher.new]
  have hlq : ((rs.length : ℕ) : ℚ) ≠ 0 := by
    exact_mod_cast Nat.one_le_iff_ne_zero.mp hlen
  constructor
  · unfold CfrPlusRegretMatcher.best_weight
    rw [scaleDiv_length, hsp]
  · unfold CfrPlusRegretMatcher.best_weight
    rw [scaleDiv_sum, hnum]
    show (rs.foldl CfrPlusRegretMatcher.update_regret
      (CfrPlusRegretMatcher.new n)).sum_p.sum / ((rs.length : ℕ) : ℚ) = 1
    rw [hmass, hnew, zero_add]
    exact div_self hlq

/-- C1 witness: the amended claim instantiated for all six variants at
`n = 3` with the single reward vector `[1, 0, -1]` (a run on which the
CFR+ counter equals the number of updates). -/
theorem C1_witness :
    ((DiscountedRegretMatcher.run linearDiscount linearDiscount
        linearStrategyDiscount 3 [[1, 0, -1]]).best_weight.length = 3 ∧
      (DiscountedRegretMatcher.run linearDiscount linearDiscount
        linearStrategyDiscount 3 [[1, 0, -1]]).best_weight.sum = 1) ∧
    ((DcfrPlusRegretMatcher.run linearDiscount prevOverCurr 3
        [[1, 0, -1]]).best_weight.length = 3 ∧
      (DcfrPlusRegretMatcher.run linearDiscount prevOverCurr 3
        [[1, 0, -1]]).best_weight.sum = 1) ∧
    ((LinearCfrRegretMatcher.run 3 [[1, 0, -1]]).best_weight.length = 3 ∧
      (LinearCfrRegretMatcher.run 3 [[1, 0, -1]]).best_weight.sum = 1) ∧
    ((PcfrPlusRegretMatcher.run 3 [[1, 0, -1]]).best_weight.length = 3 ∧
      (PcfrPlusRegretMatcher.run 3 [[1, 0, -1]]).best_weight.sum = 1) ∧
    ((PdcfrPlusRegretMatcher.run linearDiscount prevOverCurr 3
        [[1, 0, -1]]).best_weight.length = 3 ∧
      (PdcfrPlusRegretMatcher.run linearDiscount prevOverCurr 3
        [[1, 0, -1]]).best_weight.sum = 1) ∧
    ((CfrPlusRegretMatcher.run 3 [[1, 0, -1]]).best_weight.length = 3 ∧
      (CfrPlusRegretMatcher.run 3 [[1, 0, -1]]).best_weight.sum = 1) := by
  have hn : (1 : ℕ) ≤ 3 := by decide
  have hwf : ∀ r ∈ [[(1 : ℚ), 0, -1]], r.length = 3 := by simp
  have hone : (1 : ℕ) ≤ List.length [[(1 : ℚ), 0, -1]] := by simp
  have hnum : (CfrPlusRegretMatcher.run 3 [[1, 0, -1]]).num_updates =
      List.length [[(1 : ℚ), 0, -1]] := by
    norm_num [CfrPlusRegretMatcher.run, CfrPlusRegretMatcher.update_regret,
      CfrPlusRegretMatcher.new, CfrPlusRegretMatcher.init_weights,
      uniform_weights, dot, clipNonneg, add_assign, scaleDiv, List.replicate,
      List.foldl]
  exact ⟨C1_best_weight.1 linearDiscount linearDiscount
      linearStrategyDiscount 3 _ hn hwf,
    C1_best_weight.2.1 linearDiscount prevOverCurr 3 _ hn hwf,
    C1_best_weight.2.2.1 3 _ hn hwf,
    C1_best_weight.2.2.2.1 3 _ hn hwf,
    C1_best_weight.2.2.2.2.1 linearDiscount prevOverCurr 3 _ hn hwf,
    C1_best_weight.2.2.2.2.2 3 _ hn hwf hone hnum⟩

/-- C3 (counterexample): on the reward sequence `[1,-1]`, `[-1,1]` with
two experts, the scalar formulation's clipped cumulative regret is
`[1, 1]` and its strategy `[1/2, 1/2]`, whereas the per-step
clip-after-accumulate rule yields regrets `[1, 2]` and strategy
`[1/3, 2/3]` — the two formulations are not equivalent. -/
theorem C3_counterexample :
    clipNonneg ((CfrPlusRegretMatcher.run 2 [[1, -1], [-1, 1]]).regretVec) ≠
      (SpecClipMatcher.run 2 [[1, -1], [-1, 1]]).R ∧
    (CfrPlusRegretMatcher.run 2 [[1, -1], [-1, 1]]).p ≠
      (SpecClipMatcher.run 2 [[1, -1], [-1, 1]]).p := by
  have hc : clipNonneg ((CfrPlusRegretMatcher.run 2 [[1, -1], [-1, 1]]).regretVec) =
      [1, 1] := by
    norm_num [CfrPlusRegretMatcher.run, CfrPlusRegretMatcher.update_regret,
      CfrPlusRegretMatcher.regretVec, CfrPlusRegretMatcher.new,
      CfrPlusRegretMatcher.init_weights, uniform_weights, dot, clipNonneg,
      add_assign, scaleDiv, List.replicate, List.foldl]
  have hp : (CfrPlusRegretMatcher.run 2 [[1, -1], [-1, 1]]).p = [1/2, 1/2] := by
    norm_num [CfrPlusRegretMatcher.run, CfrPlusRegretMatcher.update_regret,
      CfrPlusRegretMatcher.new, CfrPlusRegretMatcher.init_weights,
      uniform_weights, dot, clipNonneg, add_assign, scaleDiv, List.replicate,
      List.foldl]
  have hR : (SpecClipMatcher.run 2 [[1, -1], [-1, 1]]).R = [1, 2] := by
    norm_num [SpecClipMatcher.run, SpecClipMatcher.update, SpecClipMatcher.new,
      uniform_weights, dot, clipNonneg, scaleDiv, List.replicate, List.foldl]
  have hq : (SpecClipMatcher.run 2 [[1, -1], [-1, 1]]).p = [1/3, 2/3] := by
    norm_num [SpecClipMatcher.run, SpecClipMatcher.update, SpecClipMatcher.new,
      uniform_weights, dot, clipNonneg, scaleDiv, List.replicate, List.foldl]
  constructor
  · rw [hc, hR]
    norm_num
  · rw [hp, hq]
    norm_num

/-- C3 (amended): the scalar
cumulative-reward/expert-reward formulation is equivalent to plain
*accumulate-then-clip* (vanilla regret matching: `R_i := R_i + r_i`
unclipped, clipping only when deriving the strategy, the degenerate
branch zeroing `R`): for every well-formed finite reward sequence the
two machines have the same unclipped cumulative regret — the scalar
machine's `expert_reward - cumulative_reward` — the same clipped
regret, and the same strategy.  It is *not* equivalent to per-step
clip-after-accumulate. -/
theorem C3_scalar_accumulate_then_clip :
    ∀ (n : ℕ) (rs : List (List ℚ)), (∀ r ∈ rs, r.length = n) →
      (AccumThenClipMatcher.run n rs).R =
        (CfrPlusRegretMatcher.run n rs).regretVec ∧
      clipNonneg ((AccumThenClipMatcher.run n rs).R) =
        clipNonneg ((CfrPlusRegretMatcher.run n rs).regretVec) ∧
      (AccumThenClipMatcher.run n rs).p = (CfrPlusRegretMatcher.run n rs).p := by
  intro n rs hwf
  obtain ⟨h1, h2, _, _⟩ := cfrAccumRel_run rs (CfrPlusRegretMatcher.new n)
    (AccumThenClipMatcher.new n) cfrAccumRel_new hwf
  exact ⟨h1, by show clipNonneg (List.foldl AccumThenClipMatcher.update
      (AccumThenClipMatcher.new n) rs).R = _; rw [h1]; rfl, h2⟩

/-- C3 witness: the amended equivalence instantiated at `n = 2` on the
reward sequence `[1,-1]`, `[-1,1]`. -/
theorem C3_witness :
    (AccumThenClipMatcher.run 2 [[1, -1], [-1, 1]]).R =
      (CfrPlusRegretMatcher.run 2 [[1, -1], [-1, 1]]).regretVec ∧
    clipNonneg ((AccumThenClipMatcher.run 2 [[1, -1], [-1, 1]]).R) =
      clipNonneg ((CfrPlusRegretMatcher.run 2 [[1, -1], [-1, 1]]).regretVec) ∧
    (AccumThenClipMatcher.run 2 [[1, -1], [-1, 1]]).p =
      (CfrPlusRegretMatcher.run 2 [[1, -1], [-1, 1]]).p :=
  C3_scalar_accumulate_then_clip 2 [[1, -1], [-1, 1]] (by simp)
